import Mathlib

/-!
# Health-check HTTP service (`app/main.go`)

A shallow embedding of `main.go` and of the parts of the Go standard library
it calls (`os.Getenv`, `net/http` handler registration and dispatch,
`http.ResponseWriter`, `encoding/json` string encoding and decoding,
`log.Printf`, `log.Fatal`, `http.ListenAndServe`).

Go strings are byte sequences; a byte is a natural number below 256.
Where releases of the Go library differ in what the program shows and the
source names no release, the difference is a parameter (`Toolchain`) or is
left out of the model (the status code of a redirect by the mux).
-/

namespace SupplyChainDemo

/-! ## Go strings -/

/-- A Go `string` / `[]byte`: a sequence of bytes. -/
abbrev GoString := List Nat

/-- The bytes of an ASCII source literal. -/
def ascii (s : String) : GoString := s.toList.map Char.toNat

/-! ## Environment and version resolution (`main.go` lines 16-19) -/

/-- The process environment: the value of each variable that is set. -/
abbrev Env := GoString → Option GoString

/-- Go `os.Getenv`: the value of the variable, or the empty string when the
variable is not present. -/
def osGetenv (env : Env) (key : GoString) : GoString :=
  match env key with
  | some v => v
  | none => []

/-- The name of the environment variable read by `main`. -/
def appVersionKey : GoString := ascii "APP_VERSION"

/-- The default version literal of `main`. -/
def defaultVersion : GoString := ascii "1.0.0"

/-- Lines 16-19 of `main`: `version := os.Getenv("APP_VERSION")`,
replaced by `"1.0.0"` when it is the empty string. -/
def resolveVersion (env : Env) : GoString :=
  let version := osGetenv env appVersionKey
  if version = [] then defaultVersion else version

/-- An environment in which only `APP_VERSION` may be set. -/
def envOfAppVersion (v : Option GoString) : Env :=
  fun k => if k = appVersionKey then v else none

/-! ## UTF-8 (`unicode/utf8`) -/

/-- Go `utf8.RuneError`, U+FFFD. -/
def runeError : Nat := 0xFFFD

/-- Go `utf8.RuneSelf`: bytes below it are single-byte runes. -/
def runeSelf : Nat := 0x80

/-- Go `utf8.UTFMax`: the longest encoding of a rune, in bytes. -/
def utfMax : Nat := 4

/-- The `first` and `acceptRanges` tables of `unicode/utf8` for a leading byte
that starts a multi-byte sequence: the length of the sequence and the range
accepted for its second byte. `none` for every other byte. -/
def firstInfo (b : Nat) : Option (Nat × Nat × Nat) :=
  if b < 0xC2 then none
  else if b < 0xE0 then some (2, 0x80, 0xBF)
  else if b = 0xE0 then some (3, 0xA0, 0xBF)
  else if b < 0xED then some (3, 0x80, 0xBF)
  else if b = 0xED then some (3, 0x80, 0x9F)
  else if b < 0xF0 then some (3, 0x80, 0xBF)
  else if b = 0xF0 then some (4, 0x90, 0xBF)
  else if b < 0xF4 then some (4, 0x80, 0xBF)
  else if b = 0xF4 then some (4, 0x80, 0x8F)
  else none

/-- Go `utf8.DecodeRuneInString` (and `utf8.DecodeRune`): the first rune of
`s` and its width in bytes; `(RuneError, 1)` for an invalid encoding and
`(RuneError, 0)` for the empty string. The masks `s0 & 0x1F`, `s0 & 0x0F`,
`s0 & 0x07`, `s & 0x3F` are written `% 32`, `% 16`, `% 8`, `% 64` and the
shifts as multiplications. -/
def decodeRune (s : GoString) : Nat × Nat :=
  match s with
  | [] => (runeError, 0)
  | s0 :: t0 =>
    if s0 < runeSelf then (s0, 1)
    else
      match firstInfo s0 with
      | none => (runeError, 1)
      | some (sz, lo, hi) =>
        if s.length < sz then (runeError, 1)
        else
          match t0 with
          | [] => (runeError, 1)
          | s1 :: t1 =>
            if s1 < lo ∨ hi < s1 then (runeError, 1)
            else if sz ≤ 2 then (s0 % 32 * 64 + s1 % 64, 2)
            else
              match t1 with
              | [] => (runeError, 1)
              | s2 :: t2 =>
                if s2 < 0x80 ∨ 0xBF < s2 then (runeError, 1)
                else if sz ≤ 3 then (s0 % 16 * 4096 + s1 % 64 * 64 + s2 % 64, 3)
                else
                  match t2 with
                  | [] => (runeError, 1)
                  | s3 :: _ =>
                    if s3 < 0x80 ∨ 0xBF < s3 then (runeError, 1)
                    else (s0 % 8 * 262144 + s1 % 64 * 4096 + s2 % 64 * 64 + s3 % 64, 4)

/-- Go `utf8.AppendRune` / `utf8.EncodeRune`: the UTF-8 encoding of a rune;
surrogates and values above U+10FFFF are encoded as U+FFFD. -/
def encodeRune (r : Nat) : GoString :=
  if r ≤ 0x7F then [r]
  else if r ≤ 0x7FF then [0xC0 + r / 64, 0x80 + r % 64]
  else if 0x10FFFF < r ∨ (0xD800 ≤ r ∧ r ≤ 0xDFFF) then [0xEF, 0xBF, 0xBD]
  else if r ≤ 0xFFFF then [0xE0 + r / 4096, 0x80 + r / 64 % 64, 0x80 + r % 64]
  else [0xF0 + r / 262144, 0x80 + r / 4096 % 64, 0x80 + r / 64 % 64, 0x80 + r % 64]

/-- Go `utf8.ValidString`, with the string length as fuel: every rune of the
string decodes without error. -/
def validLoop : Nat → GoString → Bool
  | _, [] => true
  | 0, _ :: _ => false
  | fuel + 1, b :: rest =>
    let d := decodeRune (b :: rest)
    if d.1 = runeError ∧ d.2 = 1 then false
    else validLoop fuel ((b :: rest).drop d.2)

/-- Go `utf8.ValidString`. -/
def validString (s : GoString) : Bool := validLoop s.length s

/-- What `encoding/json` makes of a string on the way through an encoded JSON
string: every byte that does not start a valid UTF-8 sequence is replaced by
U+FFFD (`EF BF BD`), valid sequences are kept. The fuel is the length. -/
def coerceLoop : Nat → GoString → GoString
  | _, [] => []
  | 0, _ :: _ => []
  | fuel + 1, b :: rest =>
    let d := decodeRune (b :: rest)
    if d.1 = runeError ∧ d.2 = 1 then [0xEF, 0xBF, 0xBD] ++ coerceLoop fuel rest
    else (b :: rest).take d.2 ++ coerceLoop fuel ((b :: rest).drop d.2)

/-- The string with its invalid UTF-8 bytes replaced by U+FFFD. -/
def coerceUTF8 (s : GoString) : GoString := coerceLoop s.length s

/-! ## JSON string encoding (`encoding/json`, `appendString`) -/

/-- What `main.go` leaves to the Go toolchain it is built with (the source
names none): how `encoding/json` writes the replacement character for a byte
that is not valid UTF-8. The original encoder writes the six-byte escape
`\ufffd`; the encoder built on json v2, the default of later releases, writes
the three bytes `EF BF BD` of U+FFFD. -/
structure Toolchain where
  rawRuneError : Bool
deriving DecidableEq, Repr

/-- A toolchain with the original encoder of `encoding/json`. -/
def Toolchain.jsonV1 : Toolchain := { rawRuneError := false }

/-- A toolchain whose `encoding/json` is built on json v2. -/
def Toolchain.jsonV2 : Toolchain := { rawRuneError := true }

/-- What the encoder writes for a byte that is not valid UTF-8. -/
def runeErrorOutput (tc : Toolchain) : GoString :=
  if tc.rawRuneError then [0xEF, 0xBF, 0xBD] else [0x5C, 0x75, 0x66, 0x66, 0x66, 0x64]

/-- The `hex` table of `encoding/json`: the lower-case hexadecimal digit of a
value below 16. -/
def hexDigit (n : Nat) : Nat := if n < 10 then 0x30 + n else 0x61 + (n - 10)

/-- The `htmlSafeSet` table of `encoding/json`: the ASCII bytes that are written
to a JSON string unescaped when HTML escaping is on (the default of an
`Encoder`): every byte from space to DEL except `"`, `\`, `<`, `>` and `&`. -/
def htmlSafeSet (b : Nat) : Bool :=
  decide (0x20 ≤ b ∧ b < 0x80 ∧ b ≠ 0x22 ∧ b ≠ 0x5C ∧ b ≠ 0x3C ∧ b ≠ 0x3E ∧ b ≠ 0x26)

/-- The `switch b` of `appendString`: the escape written for an ASCII byte that
is not in `htmlSafeSet`. -/
def escapeByte (b : Nat) : GoString :=
  if b = 0x5C ∨ b = 0x22 then [0x5C, b]
  else if b = 0x08 then [0x5C, 0x62]
  else if b = 0x0C then [0x5C, 0x66]
  else if b = 0x0A then [0x5C, 0x6E]
  else if b = 0x0D then [0x5C, 0x72]
  else if b = 0x09 then [0x5C, 0x74]
  else [0x5C, 0x75, 0x30, 0x30, hexDigit (b / 16), hexDigit (b % 16)]

/-- The loop of `appendString` with `escapeHTML = true`, with the number of
remaining bytes as fuel. The source copies the unescaped spans `src[start:i]`
lazily; here every byte is emitted when it is passed. -/
def escapeLoop (tc : Toolchain) : Nat → GoString → GoString
  | _, [] => []
  | 0, _ :: _ => []
  | fuel + 1, b :: rest =>
    if b < runeSelf then
      if htmlSafeSet b then b :: escapeLoop tc fuel rest
      else escapeByte b ++ escapeLoop tc fuel rest
    else
      let d := decodeRune ((b :: rest).take utfMax)
      if d.1 = runeError ∧ d.2 = 1 then
        runeErrorOutput tc ++ escapeLoop tc fuel rest
      else if d.1 = 0x2028 ∨ d.1 = 0x2029 then
        [0x5C, 0x75, 0x32, 0x30, 0x32, hexDigit (d.1 % 16)]
          ++ escapeLoop tc fuel ((b :: rest).drop d.2)
      else (b :: rest).take d.2 ++ escapeLoop tc fuel ((b :: rest).drop d.2)

/-- Go `appendString(dst, src, true)` on an empty `dst`: the JSON string
literal for `src`, quotes included. -/
def appendString (tc : Toolchain) (src : GoString) : GoString :=
  [0x22] ++ escapeLoop tc src.length src ++ [0x22]

/-! ## `HealthResponse` and its encoding (`main.go` lines 10-13) -/

/-- The struct `HealthResponse` of `main.go`. -/
structure HealthResponse where
  Status : GoString
  Version : GoString
deriving DecidableEq, Repr

/-- Go `json.Marshal` of a `HealthResponse` as the struct encoder of
`encoding/json` writes it: `{`, then for each field in declaration order a
comma (after the first), the quoted name from the `json` tag with a colon,
and the value as a JSON string, then `}`. -/
def marshalHealthResponse (tc : Toolchain) (v : HealthResponse) : GoString :=
  ascii "\x7b" ++ ascii "\"status\":" ++ appendString tc v.Status
    ++ ascii "," ++ ascii "\"version\":" ++ appendString tc v.Version ++ ascii "\x7d"

/-- The bytes `(*json.Encoder).Encode` hands to the writer in one `Write`:
the encoding of the value followed by a newline. -/
def encoderEncode (tc : Toolchain) (v : HealthResponse) : GoString :=
  marshalHealthResponse tc v ++ [0x0A]

/-! ## JSON decoding (`encoding/json`, scanner and `Unmarshal`) -/

/-- The `isSpace` of the JSON scanner: space, tab, carriage return, newline. -/
def isSpace (c : Nat) : Bool := decide (c = 0x20 ∨ c = 0x09 ∨ c = 0x0D ∨ c = 0x0A)

/-- Skips JSON white space. -/
def skipSpace : GoString → GoString
  | [] => []
  | c :: rest => if isSpace c then skipSpace rest else c :: rest

/-- The value of a hexadecimal digit, as in the `getu4` of `encoding/json`. -/
def hexVal (c : Nat) : Option Nat :=
  if 0x30 ≤ c ∧ c ≤ 0x39 then some (c - 0x30)
  else if 0x61 ≤ c ∧ c ≤ 0x66 then some (c - 0x61 + 10)
  else if 0x41 ≤ c ∧ c ≤ 0x46 then some (c - 0x41 + 10)
  else none

/-- The `getu4` of `encoding/json`: the number written by the escape `\uXXXX`
at the start of `s`; `none` (the source's `-1`) when `s` does not start with one. -/
def getu4 (s : GoString) : Option Nat :=
  match s with
  | e :: u :: a :: b :: c :: d :: _ =>
    if e = 0x5C ∧ u = 0x75 then
      match hexVal a, hexVal b, hexVal c, hexVal d with
      | some x, some y, some z, some w => some (((x * 16 + y) * 16 + z) * 16 + w)
      | _, _, _, _ => none
    else none
  | _ => none

/-- Go `utf16.IsSurrogate`. -/
def isSurrogate (r : Nat) : Bool := decide (0xD800 ≤ r ∧ r < 0xE000)

/-- Go `utf16.DecodeRune`: the rune of a surrogate pair, U+FFFD when the two
are not a valid pair. -/
def utf16DecodeRune (r1 r2 : Nat) : Nat :=
  if 0xD800 ≤ r1 ∧ r1 < 0xDC00 ∧ 0xDC00 ≤ r2 ∧ r2 < 0xE000 then
    (r1 - 0xD800) * 1024 + (r2 - 0xDC00) + 0x10000
  else runeError

/-- The one-letter escapes a JSON string may hold after a backslash, with the
byte each stands for. -/
def simpleEscape (e : Nat) : Option Nat :=
  if e = 0x22 ∨ e = 0x5C ∨ e = 0x2F then some e
  else if e = 0x62 then some 0x08
  else if e = 0x66 then some 0x0C
  else if e = 0x6E then some 0x0A
  else if e = 0x72 then some 0x0D
  else if e = 0x74 then some 0x09
  else none

/-- A JSON string literal, read from just after its opening quote: the
scanner's string states and the loop of `unquoteBytes` in one pass. The result
is the decoded string and the input after the closing quote; `none` for a
literal that is not valid (a control character, a bad escape, no closing
quote). Invalid UTF-8 is coerced to U+FFFD and an unpaired surrogate escape
decodes to U+FFFD, as in the source. -/
def parseStringBody : Nat → GoString → Option (GoString × GoString)
  | 0, _ => none
  | _ + 1, [] => none
  | fuel + 1, c :: rest =>
    if c = 0x22 then some ([], rest)
    else if c = 0x5C then
      match rest with
      | [] => none
      | e :: rest1 =>
        if e = 0x75 then
          match getu4 (c :: rest) with
          | none => none
          | some rr =>
            let rest2 := rest1.drop 4
            if isSurrogate rr then
              let dec := match getu4 rest2 with
                | some rr1 => utf16DecodeRune rr rr1
                | none => runeError
              if dec ≠ runeError then
                (parseStringBody fuel (rest2.drop 6)).map
                  (fun q => (encodeRune dec ++ q.1, q.2))
              else
                (parseStringBody fuel rest2).map
                  (fun q => (encodeRune runeError ++ q.1, q.2))
            else
              (parseStringBody fuel rest2).map (fun q => (encodeRune rr ++ q.1, q.2))
        else
          match simpleEscape e with
          | none => none
          | some b => (parseStringBody fuel rest1).map (fun q => (b :: q.1, q.2))
    else if c < 0x20 then none
    else if c < runeSelf then (parseStringBody fuel rest).map (fun q => (c :: q.1, q.2))
    else
      let d := decodeRune (c :: rest)
      (parseStringBody fuel ((c :: rest).drop d.2)).map
        (fun q => (encodeRune d.1 ++ q.1, q.2))

/-- A JSON string literal starting at its opening quote. -/
def parseString (s : GoString) : Option (GoString × GoString) :=
  match s with
  | c :: rest => if c = 0x22 then parseStringBody (rest.length + 1) rest else none
  | [] => none

/-- The longest run of decimal digits at the start of the input, and the rest. -/
def takeDigits : GoString → GoString × GoString
  | [] => ([], [])
  | c :: rest =>
    if 0x30 ≤ c ∧ c ≤ 0x39 then ((c :: (takeDigits rest).1), (takeDigits rest).2)
    else ([], c :: rest)

/-- A JSON number literal as the scanner accepts it: an optional minus sign,
`0` or a digit run without leading zero, an optional fraction, an optional
exponent. The result is the literal and the rest of the input. -/
def parseNumber (s : GoString) : Option (GoString × GoString) :=
  let sign : GoString × GoString :=
    match s with
    | c :: t => if c = 0x2D then ([c], t) else ([], s)
    | [] => ([], s)
  let int : Option (GoString × GoString) :=
    match sign.2 with
    | c :: t =>
      if c = 0x30 then some ([c], t)
      else if 0x31 ≤ c ∧ c ≤ 0x39 then some (c :: (takeDigits t).1, (takeDigits t).2)
      else none
    | [] => none
  match int with
  | none => none
  | some (i, t) =>
    let frac : Option (GoString × GoString) :=
      match t with
      | c :: t1 =>
        if c = 0x2E then
          if (takeDigits t1).1 = [] then none
          else some (c :: (takeDigits t1).1, (takeDigits t1).2)
        else some ([], t)
      | [] => some ([], t)
    match frac with
    | none => none
    | some (f, t2) =>
      let exp : Option (GoString × GoString) :=
        match t2 with
        | c :: t3 =>
          if c = 0x65 ∨ c = 0x45 then
            let sg : GoString × GoString :=
              match t3 with
              | g :: t4 => if g = 0x2B ∨ g = 0x2D then ([g], t4) else ([], t3)
              | [] => ([], t3)
            if (takeDigits sg.2).1 = [] then none
            else some (c :: sg.1 ++ (takeDigits sg.2).1, (takeDigits sg.2).2)
          else some ([], t2)
        | [] => some ([], t2)
      match exp with
      | none => none
      | some (e, t5) => some (sign.1 ++ i ++ f ++ e, t5)

/-- A decoded JSON value. Numbers keep their literal; strings and object keys
are unquoted; object members are kept in the order of the text. -/
inductive JValue where
  | null
  | bool (b : Bool)
  | number (lit : GoString)
  | string (s : GoString)
  | array (elems : List JValue)
  | object (members : List (GoString × JValue))

mutual
/-- One JSON value at the start of the input (no leading white space), and the
rest of the input. The fuel bounds the nesting and the number of elements. -/
def parseValue : Nat → GoString → Option (JValue × GoString)
  | 0, _ => none
  | _ + 1, [] => none
  | fuel + 1, c :: rest =>
    if c = 0x7B then
      match skipSpace rest with
      | d :: rest1 =>
        if d = 0x7D then some (JValue.object [], rest1)
        else (parseMembers fuel (d :: rest1)).map (fun q => (JValue.object q.1, q.2))
      | [] => none
    else if c = 0x5B then
      match skipSpace rest with
      | d :: rest1 =>
        if d = 0x5D then some (JValue.array [], rest1)
        else (parseElems fuel (d :: rest1)).map (fun q => (JValue.array q.1, q.2))
      | [] => none
    else if c = 0x22 then
      (parseString (c :: rest)).map (fun q => (JValue.string q.1, q.2))
    else if c = 0x2D ∨ (0x30 ≤ c ∧ c ≤ 0x39) then
      (parseNumber (c :: rest)).map (fun q => (JValue.number q.1, q.2))
    else if ascii "true" <+: c :: rest then some (JValue.bool true, (c :: rest).drop 4)
    else if ascii "false" <+: c :: rest then some (JValue.bool false, (c :: rest).drop 5)
    else if ascii "null" <+: c :: rest then some (JValue.null, (c :: rest).drop 4)
    else none
/-- The members of a non-empty object, from the first key to the closing brace. -/
def parseMembers : Nat → GoString → Option (List (GoString × JValue) × GoString)
  | 0, _ => none
  | fuel + 1, s =>
    match parseString s with
    | none => none
    | some (key, s1) =>
      match skipSpace s1 with
      | c :: s2 =>
        if c = 0x3A then
          match parseValue fuel (skipSpace s2) with
          | none => none
          | some (v, s3) =>
            match skipSpace s3 with
            | d :: s4 =>
              if d = 0x7D then some ([(key, v)], s4)
              else if d = 0x2C then
                (parseMembers fuel (skipSpace s4)).map (fun q => ((key, v) :: q.1, q.2))
              else none
            | [] => none
        else none
      | [] => none
/-- The elements of a non-empty array, from the first one to the closing bracket. -/
def parseElems : Nat → GoString → Option (List JValue × GoString)
  | 0, _ => none
  | fuel + 1, s =>
    match parseValue fuel s with
    | none => none
    | some (v, s1) =>
      match skipSpace s1 with
      | d :: s2 =>
        if d = 0x5D then some ([v], s2)
        else if d = 0x2C then
          (parseElems fuel (skipSpace s2)).map (fun q => (v :: q.1, q.2))
        else none
      | [] => none
end

/-- A whole JSON text, as `checkValid` accepts it: white space, one value,
white space, end of input. `none` is a syntax error. -/
def parseJSON (data : GoString) : Option JValue :=
  match parseValue (data.length + 1) (skipSpace data) with
  | some (v, rest) => if skipSpace rest = [] then some v else none
  | none => none

/-- The `foldName` of `encoding/json` as far as it matters for field names in
ASCII: ASCII letters go to upper case, U+017F (long s) folds to `S` and
U+212A (Kelvin sign) to `K`; any other rune folds to a rune that is not ASCII
and is kept as it is. -/
def foldName : Nat → GoString → GoString
  | _, [] => []
  | 0, _ :: _ => []
  | fuel + 1, c :: rest =>
    if c < runeSelf then
      (if 0x61 ≤ c ∧ c ≤ 0x7A then c - 0x20 else c) :: foldName fuel rest
    else
      let d := decodeRune (c :: rest)
      let r := if d.1 = 0x17F then 0x53 else if d.1 = 0x212A then 0x4B else d.1
      encodeRune r ++ foldName fuel ((c :: rest).drop d.2)

/-- The fields of `HealthResponse`. -/
inductive HealthField where
  | status
  | version
deriving DecidableEq, Repr

/-- The field a JSON object key is stored in: the field whose `json` name is
the key, or else the one whose name equals the key under case folding. -/
def fieldForKey (key : GoString) : Option HealthField :=
  if key = ascii "status" then some HealthField.status
  else if key = ascii "version" then some HealthField.version
  else if foldName key.length key = ascii "STATUS" then some HealthField.status
  else if foldName key.length key = ascii "VERSION" then some HealthField.version
  else none

/-- Storing one object member into a `HealthResponse`: a member of an unknown
key is skipped, a string is stored in its field, `null` leaves the field as it
is, and a value of any other kind is an `UnmarshalTypeError` (`none`). -/
def storeMember (acc : Option HealthResponse) (m : GoString × JValue) : Option HealthResponse :=
  match acc with
  | none => none
  | some hr =>
    match fieldForKey m.1 with
    | none => some hr
    | some f =>
      match m.2 with
      | JValue.string s =>
        match f with
        | HealthField.status => some { hr with Status := s }
        | HealthField.version => some { hr with Version := s }
      | JValue.null => some hr
      | _ => none

/-- Go `json.Unmarshal(data, &hr)` for a zero `hr HealthResponse`: `none` when
it returns an error (a syntax error or a value of the wrong kind). -/
def unmarshalHealthResponse (data : GoString) : Option HealthResponse :=
  match parseJSON data with
  | none => none
  | some (JValue.object members) =>
    members.foldl storeMember (some { Status := [], Version := [] })
  | some JValue.null => some { Status := [], Version := [] }
  | some _ => none

/-! ## `net/http`: headers, response writer, requests -/

/-- Go `http.Header`: header names with their values. -/
abbrev Header := List (GoString × List GoString)


/-- The token bytes of a header field name (`validHeaderFieldByte` of
`net/textproto`): letters, digits and the marks `!#$%&*+-.^_|~`, the
apostrophe and the grave accent. -/
def validHeaderFieldByte (c : Nat) : Bool :=
  decide ((0x30 ≤ c ∧ c ≤ 0x39) ∨ (0x41 ≤ c ∧ c ≤ 0x5A) ∨ (0x61 ≤ c ∧ c ≤ 0x7A)
    ∨ c = 0x21 ∨ c = 0x23 ∨ c = 0x24 ∨ c = 0x25 ∨ c = 0x26 ∨ c = 0x27 ∨ c = 0x2A
    ∨ c = 0x2B ∨ c = 0x2D ∨ c = 0x2E ∨ c = 0x5E ∨ c = 0x5F ∨ c = 0x60 ∨ c = 0x7C
    ∨ c = 0x7E)

/-- The second loop of `canonicalMIMEHeaderKey`: upper case for the first
letter and for a letter after a dash, lower case for the others. -/
def canonicalLoop : Bool → GoString → GoString
  | _, [] => []
  | upper, c :: rest =>
    let c1 :=
      if upper ∧ 0x61 ≤ c ∧ c ≤ 0x7A then c - 0x20
      else if ¬ upper ∧ 0x41 ≤ c ∧ c ≤ 0x5A then c + 0x20
      else c
    c1 :: canonicalLoop (c1 = 0x2D) rest

/-- Go `textproto.CanonicalMIMEHeaderKey`: a key made of token bytes only is
put in canonical form, any other key is returned unchanged. -/
def canonicalMIMEHeaderKey (a : GoString) : GoString :=
  if a.all validHeaderFieldByte then canonicalLoop true a else a

/-- Go `Header.Values`: all the values of the canonical form of the key,
`none` when the header has no such key. -/
def Header.values (h : Header) (key : GoString) : Option (List GoString) :=
  (h.find? (fun e => e.1 = canonicalMIMEHeaderKey key)).map (fun e => e.2)

/-- Go `Header.Set`: the values of the canonical form of the key are replaced
by the single value given. -/
def Header.set (h : Header) (key value : GoString) : Header :=
  h.filter (fun e => e.1 ≠ canonicalMIMEHeaderKey key)
    ++ [(canonicalMIMEHeaderKey key, [value])]

/-- The state of an `http.ResponseWriter`: the header map handed out by
`Header()`, whether the status line and headers have been written, the status
code and the headers as they were written, and the body bytes written so far. -/
structure ResponseWriter where
  header : Header
  wroteHeader : Bool
  status : Nat
  sentHeader : Header
  body : GoString
deriving DecidableEq, Repr

/-- The response writer a handler receives for a new request. -/
def ResponseWriter.fresh : ResponseWriter :=
  { header := [], wroteHeader := false, status := 0, sentHeader := [], body := [] }

/-- Go `ResponseWriter.WriteHeader`: the first call fixes the status code and
the headers that are sent; later calls change nothing. -/
def ResponseWriter.WriteHeader (w : ResponseWriter) (code : Nat) : ResponseWriter :=
  if w.wroteHeader then w
  else { w with wroteHeader := true, status := code, sentHeader := w.header }

/-- Go `ResponseWriter.Write`: calls `WriteHeader(http.StatusOK)` when no
header has been written yet, then appends the data to the body. -/
def ResponseWriter.Write (w : ResponseWriter) (data : GoString) : ResponseWriter :=
  let w1 := if w.wroteHeader then w else w.WriteHeader 200
  { w1 with body := w1.body ++ data }

/-- What the server does when a handler returns: a response whose header was
never written gets status 200 and the headers set so far. -/
def ResponseWriter.finish (w : ResponseWriter) : ResponseWriter :=
  if w.wroteHeader then w else w.WriteHeader 200

/-- An incoming `http.Request`, as far as handlers and the mux can see it.
`path` is the path the mux works on (`URL.Path`); percent-escapes, for which
the escaped and the unescaped path differ, are not modelled. -/
structure Request where
  method : GoString
  path : GoString
  rawQuery : GoString
  host : GoString
  header : Header
  body : GoString
deriving DecidableEq, Repr

/-- A response as a handler produced it: the status code, the headers as they
were sent, the body bytes written. What of it the server puts on the wire is
`wireResponse`. -/
structure Response where
  status : Nat
  header : Header
  body : GoString
deriving DecidableEq, Repr

/-- The response a finished response writer stands for. -/
def ResponseWriter.response (w : ResponseWriter) : Response :=
  { status := w.finish.status, header := w.finish.sentHeader, body := w.finish.body }

/-! ## The two handlers of `main.go` -/

/-- The handler registered for `/health` (lines 21-27), closed over the
resolved version. -/
def healthHandler (tc : Toolchain) (version : GoString) (w : ResponseWriter) (_r : Request) :
    ResponseWriter :=
  let w1 := { w with header := w.header.set (ascii "Content-Type") (ascii "application/json") }
  w1.Write (encoderEncode tc { Status := ascii "healthy", Version := version })

/-- The body the root handler writes. -/
def rootBody : GoString := ascii "Supply Chain Security Demo App\n"

/-- The handler registered for `/` (lines 29-31). -/
def rootHandler (w : ResponseWriter) (_r : Request) : ResponseWriter :=
  w.Write rootBody

/-! ## Routing (`http.HandleFunc` on the default `ServeMux`) -/

/-- The handlers `main` registers. -/
inductive HandlerId where
  | health
  | root
deriving DecidableEq, Repr

/-- The registrations of a `ServeMux`: patterns with their handlers. -/
abbrev ServeMux := List (GoString × HandlerId)

/-- Go `http.HandleFunc`: adds a registration. -/
def handleFunc (mux : ServeMux) (pattern : GoString) (h : HandlerId) : ServeMux :=
  mux ++ [(pattern, h)]

/-- Splits a path at its slashes: `splitSlash cur p` are the elements of
`cur ++ p` between slashes, `cur` being the (reversed) element read so far. -/
def splitSlash : GoString → GoString → List GoString
  | cur, [] => [cur.reverse]
  | cur, c :: rest =>
    if c = 0x2F then cur.reverse :: splitSlash [] rest
    else splitSlash (c :: cur) rest

/-- The element loop of Go `path.Clean`, on the list of path elements, with
the elements kept so far as a stack: empty elements and `.` are dropped, `..`
removes the last kept element (at the root it is dropped; in a path that is
not rooted it is kept when there is nothing to remove). -/
def cleanElems (rooted : Bool) : List GoString → List GoString → List GoString
  | stack, [] => stack.reverse
  | stack, e :: rest =>
    if e = [] ∨ e = [0x2E] then cleanElems rooted stack rest
    else if e = [0x2E, 0x2E] then
      match stack with
      | [] => if rooted then cleanElems rooted [] rest
              else cleanElems rooted [[0x2E, 0x2E]] rest
      | top :: below =>
        if ¬ rooted ∧ top = [0x2E, 0x2E] then cleanElems rooted (e :: stack) rest
        else cleanElems rooted below rest
    else cleanElems rooted (e :: stack) rest

/-- Go `path.Clean`: the shortest path name equivalent to `p` by purely
lexical processing. -/
def pathClean (p : GoString) : GoString :=
  if p = [] then [0x2E]
  else
    let rooted : Bool := p.head? = some 0x2F
    let out := [0x2F].intercalate (cleanElems rooted [] (splitSlash [] p))
    if rooted then 0x2F :: out
    else if out = [] then [0x2E] else out

/-- The `cleanPath` of `net/http`: the canonical form of a request path, with
a leading slash, cleaned by `path.Clean`, and with a trailing slash kept. -/
def cleanPath (p : GoString) : GoString :=
  if p = [] then [0x2F]
  else
    let p1 := if p.head? = some 0x2F then p else 0x2F :: p
    let np := pathClean p1
    if p1.getLast? = some 0x2F ∧ np ≠ [0x2F] then
      if p1.length = np.length + 1 ∧ np <+: p1 then p1 else np ++ [0x2F]
    else np

/-- The `match` of `ServeMux`: a pattern equal to the path wins; otherwise the
longest pattern that ends in a slash and is a prefix of the path. -/
def muxMatch (mux : ServeMux) (path : GoString) : Option HandlerId :=
  match mux.find? (fun e => e.1 = path) with
  | some e => some e.2
  | none =>
    (mux.foldl
      (fun (best : Option (GoString × HandlerId)) e =>
        if e.1.getLast? = some 0x2F ∧ e.1 <+: path then
          match best with
          | none => some e
          | some b => if b.1.length < e.1.length then some e else some b
        else best)
      none).map (fun e => e.2)

/-- The `shouldRedirect` of `ServeMux`: the path is not registered but the
path with a slash appended is. No pattern of this program names a host. -/
def shouldRedirect (mux : ServeMux) (path : GoString) : Bool :=
  if mux.any (fun e => e.1 = path) then false
  else if path.length = 0 then false
  else if mux.any (fun e => e.1 = path ++ [0x2F]) then path.getLast? ≠ some 0x2F
  else false

/-- What the mux decides for a request: one of the registered handlers, or a
reply of its own (a redirect to a path, or not found). -/
inductive Route where
  | handler (h : HandlerId)
  | redirect (path : GoString)
  | notFound
deriving DecidableEq, Repr

/-- The handler lookup of `ServeMux` for a path. -/
def muxLookup (mux : ServeMux) (path : GoString) : Route :=
  match muxMatch mux path with
  | some h => Route.handler h
  | none => Route.notFound

/-- Go `(*ServeMux).Handler`: a `CONNECT` request is looked up by its path as
it is; for every other method the path is cleaned first and a request whose
path is not in canonical form is answered by a redirect to the cleaned path.
The special case of `ServeMux.ServeHTTP` for the request target `*` is left
out: such a request has the path `*`, or an empty path with `CONNECT`, and is
answered here too without a handler being called. -/
def muxHandler (mux : ServeMux) (r : Request) : Route :=
  if r.method = ascii "CONNECT" then
    if shouldRedirect mux r.path then Route.redirect (r.path ++ [0x2F])
    else muxLookup mux r.path
  else
    let path := cleanPath r.path
    if shouldRedirect mux path then Route.redirect (path ++ [0x2F])
    else if path ≠ r.path then Route.redirect path
    else muxLookup mux r.path

/-- The default mux after the two `http.HandleFunc` calls of `main`
(lines 21 and 29). -/
def appMux : ServeMux :=
  handleFunc (handleFunc [] (ascii "/health") HandlerId.health) (ascii "/") HandlerId.root

/-- The outcome of serving one request: the response of one of the program's
handlers, or a reply of the mux itself, of which only the kind and the
redirect target are kept (its status code, 301 or 307, and its body depend
on the toolchain and on the method and are not modelled). -/
inductive ServeResult where
  | handled (h : HandlerId) (res : Response)
  | muxRedirect (path : GoString)
  | muxNotFound
deriving DecidableEq, Repr

/-- Runs a registered handler on a new response writer. -/
def runHandler (tc : Toolchain) (version : GoString) (h : HandlerId) (r : Request) : Response :=
  match h with
  | HandlerId.health => (healthHandler tc version ResponseWriter.fresh r).response
  | HandlerId.root => (rootHandler ResponseWriter.fresh r).response

/-- Serving one request with the mux of `main` and the resolved version. -/
def serve (tc : Toolchain) (version : GoString) (r : Request) : ServeResult :=
  match muxHandler appMux r with
  | Route.handler h => ServeResult.handled h (runHandler tc version h r)
  | Route.redirect p => ServeResult.muxRedirect p
  | Route.notFound => ServeResult.muxNotFound

/-! ## `main` -/

/-- The outside world of one run of `main`: the environment, the error of
binding a TCP address if there is one, the requests that arrive while the
server runs, and the error with which serving ends (`none` while it has not
ended: `main` is still blocked in `ListenAndServe`). -/
structure World where
  env : Env
  listenError : GoString → Option GoString
  requests : List Request
  serveError : Option GoString

/-- The observable effects of `main`, in the order they happen. -/
inductive Effect where
  | getenv (key : GoString)
  | handleFunc (pattern : GoString) (h : HandlerId)
  | logPrint (msg : GoString)
  | listen (addr : GoString)
  | served (r : Request) (res : ServeResult)
  | exit (code : Nat)
deriving DecidableEq, Repr

/-- Go `http.ListenAndServe(addr, nil)`: binds the address; when that fails it
returns the error at once; otherwise it serves the incoming requests with the
default mux until serving ends with an error. The result is the effects and
the error returned, `none` when the call has not returned. -/
def listenAndServe (tc : Toolchain) (w : World) (version addr : GoString) :
    List Effect × Option GoString :=
  match w.listenError addr with
  | some err => ([Effect.listen addr], some err)
  | none =>
    (Effect.listen addr :: w.requests.map (fun r => Effect.served r (serve tc version r)),
      w.serveError)

/-- Go `log.Fatal(err)`: prints the error and calls `os.Exit(1)`. -/
def logFatal (err : GoString) : List Effect :=
  [Effect.logPrint err, Effect.exit 1]

/-- The startup message of line 33,
`"Starting server on :8080 (version %s)"` formatted with the version. -/
def startupMessage (version : GoString) : GoString :=
  ascii "Starting server on :8080 (version " ++ version ++ ascii ")"

/-- The function `main` of `main.go`: its effects in order, and the exit code
of the process (`none` while the server is running). -/
def main (tc : Toolchain) (w : World) : List Effect × Option Nat :=
  let version := resolveVersion w.env
  let startup :=
    [Effect.getenv appVersionKey,
     Effect.handleFunc (ascii "/health") HandlerId.health,
     Effect.handleFunc (ascii "/") HandlerId.root,
     Effect.logPrint (startupMessage version)]
  let ls := listenAndServe tc w version (ascii ":8080")
  match ls.2 with
  | some err => (startup ++ ls.1 ++ logFatal err, some 1)
  | none => (startup ++ ls.1, none)

/-- The response of an outcome, when one of the program's handlers produced it. -/
def ServeResult.response? : ServeResult → Option Response
  | ServeResult.handled _ res => some res
  | ServeResult.muxRedirect _ => none
  | ServeResult.muxNotFound => none

/-- The body of an outcome, when one of the program's handlers produced it. -/
def ServeResult.body? (s : ServeResult) : Option GoString :=
  s.response?.map (fun res => res.body)

/-- What the server puts on the wire for the response a handler wrote: the
status and the headers as they are, and the body unless the request is a
`HEAD` request, whose answer carries no body. -/
def wireResponse (r : Request) (res : Response) : Response :=
  if r.method = ascii "HEAD" then { res with body := [] } else res

/-- Serving one request, as seen on the wire. -/
def serveWire (tc : Toolchain) (version : GoString) (r : Request) : ServeResult :=
  match serve tc version r with
  | ServeResult.handled h res => ServeResult.handled h (wireResponse r res)
  | ServeResult.muxRedirect p => ServeResult.muxRedirect p
  | ServeResult.muxNotFound => ServeResult.muxNotFound

/-- The header key and value the health handler sets. -/
def contentType : GoString := ascii "Content-Type"

/-- The media type the health handler announces. -/
def applicationJSON : GoString := ascii "application/json"

/-- A request with the given method and path and nothing else. -/
def simpleRequest (method path : GoString) : Request :=
  { method := method, path := path, rawQuery := [], host := [], header := [], body := [] }

/-- A world in which `APP_VERSION` is as given, binding fails with the given
error if any, and the given requests arrive. -/
def simpleWorld (v : Option GoString) (bindErr : Option GoString) (reqs : List Request) : World :=
  { env := envOfAppVersion v, listenError := fun _ => bindErr, requests := reqs,
    serveError := none }

/-! ## Routing lemmas -/

theorem shouldRedirect_appMux (p : GoString) : shouldRedirect appMux p = false := by
  unfold shouldRedirect
  by_cases h1 : (appMux.any (fun e => e.1 = p)) = true
  · simp [h1]
  · by_cases h2 : p.length = 0
    · simp [h1, h2]
    · have h3 : (appMux.any (fun e => e.1 = p ++ [0x2F])) = false := by
        cases p with
        | nil => simp at h2
        | cons a t =>
          have e1 : ascii "/health" = [0x2F, 0x68, 0x65, 0x61, 0x6C, 0x74, 0x68] := by decide
          have e2 : ascii "/" = [0x2F] := by decide
          have hne : ¬ (ascii "/health" = a :: (t ++ [0x2F])) := by
            intro h
            have h4 := congrArg List.getLast? h
            rw [e1, ← List.cons_append, List.getLast?_append] at h4
            simp at h4
          have hne2 : ¬ (ascii "/" = a :: (t ++ [0x2F])) := by
            intro h
            have h4 := congrArg List.length h
            rw [e2] at h4
            simp at h4
          simp [appMux, handleFunc, hne, hne2]
      simp [h1, h2, h3]

theorem muxLookup_health : muxLookup appMux (ascii "/health") = Route.handler HandlerId.health := by
  decide

theorem muxLookup_rooted (t : GoString) (h : (0x2F :: t) ≠ ascii "/health") :
    muxLookup appMux (0x2F :: t) = Route.handler HandlerId.root := by
  have e1 : ascii "/health" = [0x2F, 0x68, 0x65, 0x61, 0x6C, 0x74, 0x68] := by decide
  have e2 : ascii "/" = [0x2F] := by decide
  rw [e1] at h
  by_cases ht : t = []
  · subst ht
    simp [muxLookup, muxMatch, appMux, handleFunc, e1, e2]
  · have : ¬ ([0x2F] = 0x2F :: t) := by
      intro hh
      exact ht (by simpa using hh.symm)
    simp [muxLookup, muxMatch, appMux, handleFunc, e1, e2, h, this, Ne.symm h]

theorem cleanPath_rooted (p : GoString) : ∃ t, cleanPath p = 0x2F :: t := by
  unfold cleanPath
  by_cases hp : p = []
  · exact ⟨[], by simp [hp]⟩
  · simp only [hp, if_false]
    have hp1 : ∃ t1, (if p.head? = some 0x2F then p else 0x2F :: p) = 0x2F :: t1 := by
      by_cases hh : p.head? = some 0x2F
      · cases p with
        | nil => exact absurd rfl hp
        | cons a t =>
          simp at hh
          exact ⟨t, by simp [hh]⟩
      · exact ⟨p, by simp [hh]⟩
    obtain ⟨t1, ht1⟩ := hp1
    rw [ht1]
    have hnp : ∃ t2, pathClean (0x2F :: t1) = 0x2F :: t2 := by
      unfold pathClean
      simp
    obtain ⟨t2, ht2⟩ := hnp
    rw [ht2]
    split
    · split
      · exact ⟨t1, rfl⟩
      · exact ⟨t2 ++ [0x2F], by simp⟩
    · exact ⟨t2, rfl⟩

theorem muxHandler_health (r : Request) (h : r.path = ascii "/health") :
    muxHandler appMux r = Route.handler HandlerId.health := by
  have h2 : cleanPath (ascii "/health") = ascii "/health" := by decide
  unfold muxHandler
  simp [h, shouldRedirect_appMux, h2, muxLookup_health]

theorem muxHandler_canonical (r : Request) (hc : cleanPath r.path = r.path)
    (h : r.path ≠ ascii "/health") :
    muxHandler appMux r = Route.handler HandlerId.root := by
  obtain ⟨t, ht⟩ := cleanPath_rooted r.path
  rw [hc] at ht
  have hl : muxLookup appMux r.path = Route.handler HandlerId.root := by
    rw [ht]
    exact muxLookup_rooted t (by rw [← ht]; exact h)
  unfold muxHandler
  simp [shouldRedirect_appMux, hc, hl]

theorem muxHandler_handler_eq (r : Request) (h : HandlerId)
    (hr : muxHandler appMux r = Route.handler h) :
    muxLookup appMux r.path = Route.handler h := by
  unfold muxHandler at hr
  simp only [shouldRedirect_appMux] at hr
  split at hr
  · simpa using hr
  · simp only [Bool.false_eq_true, if_false] at hr
    split at hr
    · simp at hr
    · exact hr

theorem runHandler_health (tc : Toolchain) (v : GoString) (r : Request) :
    runHandler tc v HandlerId.health r =
      { status := 200, header := [(contentType, [applicationJSON])],
        body := encoderEncode tc { Status := ascii "healthy", Version := v } } := by
  have hc : canonicalMIMEHeaderKey (ascii "Content-Type") = ascii "Content-Type" := by decide
  simp [runHandler, healthHandler, ResponseWriter.response, ResponseWriter.finish,
    ResponseWriter.Write, ResponseWriter.WriteHeader, ResponseWriter.fresh, Header.set, hc,
    contentType, applicationJSON]

theorem runHandler_root (tc : Toolchain) (v : GoString) (r : Request) :
    runHandler tc v HandlerId.root r = { status := 200, header := [], body := rootBody } := by
  simp [runHandler, rootHandler, ResponseWriter.response, ResponseWriter.finish,
    ResponseWriter.Write, ResponseWriter.WriteHeader, ResponseWriter.fresh]

theorem serve_health (tc : Toolchain) (v : GoString) (r : Request) (h : r.path = ascii "/health") :
    serve tc v r = ServeResult.handled HandlerId.health
      { status := 200, header := [(contentType, [applicationJSON])],
        body := encoderEncode tc { Status := ascii "healthy", Version := v } } := by
  simp [serve, muxHandler_health r h, runHandler_health]

theorem serve_canonical (tc : Toolchain) (v : GoString) (r : Request) (hc : cleanPath r.path = r.path)
    (h : r.path ≠ ascii "/health") :
    serve tc v r = ServeResult.handled HandlerId.root
      { status := 200, header := [], body := rootBody } := by
  simp [serve, muxHandler_canonical r hc h, runHandler_root]

/-! ## Handler lemmas -/

theorem headerValues_set (h : Header) (key value : GoString) :
    Header.values (h.set key value) key = some [value] := by
  unfold Header.values Header.set
  have hnone : List.find? (fun e => decide (e.1 = canonicalMIMEHeaderKey key))
      (List.filter (fun e => decide (e.1 ≠ canonicalMIMEHeaderKey key)) h) = none := by
    rw [List.find?_eq_none]
    intro x hx
    have := (List.mem_filter.mp hx).2
    simpa using this
  rw [List.find?_append, hnone]
  simp

theorem runHandler_indep (tc : Toolchain) (v : GoString) (h : HandlerId) (r1 r2 : Request) :
    runHandler tc v h r1 = runHandler tc v h r2 := by
  cases h <;> rfl

/-! ## UTF-8 and JSON lemmas -/

theorem firstInfo_some (s0 sz lo hi : Nat) (h : firstInfo s0 = some (sz, lo, hi)) :
    (sz = 2 ∧ 0xC2 ≤ s0 ∧ s0 < 0xE0 ∧ lo = 0x80 ∧ hi = 0xBF) ∨
    (sz = 3 ∧ 0xE0 ≤ s0 ∧ s0 < 0xF0 ∧ 0x80 ≤ lo ∧ hi ≤ 0xBF ∧
      (s0 = 0xE0 → lo = 0xA0) ∧ (s0 = 0xED → hi = 0x9F)) ∨
    (sz = 4 ∧ 0xF0 ≤ s0 ∧ s0 ≤ 0xF4 ∧ 0x80 ≤ lo ∧ hi ≤ 0xBF ∧
      (s0 = 0xF0 → lo = 0x90) ∧ (s0 = 0xF4 → hi = 0x8F)) := by
  unfold firstInfo at h
  split_ifs at h <;> simp only [Option.some.injEq, Prod.mk.injEq] at h <;>
    obtain ⟨rfl, rfl, rfl⟩ := h <;> omega

theorem decodeRune_ascii (b : Nat) (t : GoString) (h : b < 0x80) :
    decodeRune (b :: t) = (b, 1) := by
  simp [decodeRune, runeSelf, h]

theorem decodeRune_take (l : GoString) : decodeRune (l.take utfMax) = decodeRune l := by
  rcases l with _ | ⟨a, _ | ⟨b, _ | ⟨c, _ | ⟨d, t⟩⟩⟩⟩
  · rfl
  · rfl
  · rfl
  · rfl
  · simp only [utfMax, List.take_succ_cons, List.take_zero]
    by_cases ha : a < runeSelf
    · simp [decodeRune, ha]
    · cases hfi : firstInfo a with
      | none => simp [decodeRune, ha, hfi]
      | some q =>
        obtain ⟨sz, lo, hi⟩ := q
        have h2 : ¬ (t.length + 1 + 1 + 1 + 1 < 2) := by omega
        have h3 : ¬ (t.length + 1 + 1 + 1 + 1 < 3) := by omega
        have h4 : ¬ (t.length + 1 + 1 + 1 + 1 < 4) := by omega
        rcases firstInfo_some a sz lo hi hfi with ⟨rfl, _⟩ | ⟨rfl, _⟩ | ⟨rfl, _⟩ <;>
          simp [decodeRune, ha, hfi, h2, h3, h4]

theorem parse_escapeByte (b : Nat) (hb : b < 0x80) (hs : htmlSafeSet b = false)
    (f : Nat) (tail : GoString) :
    parseStringBody (f + 1) (escapeByte b ++ tail)
      = (parseStringBody f tail).map (fun q => (b :: q.1, q.2)) := by
  have hcases : b < 0x20 ∨ b = 0x22 ∨ b = 0x5C ∨ b = 0x3C ∨ b = 0x3E ∨ b = 0x26 := by
    simp [htmlSafeSet] at hs
    omega
  rcases hcases with h | rfl | rfl | rfl | rfl | rfl
  · interval_cases b <;>
      simp [escapeByte, parseStringBody, getu4, hexVal, hexDigit, simpleEscape, isSurrogate,
        encodeRune]
  all_goals
    simp [escapeByte, parseStringBody, getu4, hexVal, hexDigit, simpleEscape, isSurrogate,
        encodeRune]

theorem decodeRune_multi (s0 : Nat) (t : GoString) (h0 : 0x80 ≤ s0) :
    decodeRune (s0 :: t) = (runeError, 1) ∨
    (2 ≤ (decodeRune (s0 :: t)).2 ∧ (decodeRune (s0 :: t)).2 ≤ (s0 :: t).length ∧
      0x80 ≤ (decodeRune (s0 :: t)).1 ∧
      encodeRune (decodeRune (s0 :: t)).1 = (s0 :: t).take (decodeRune (s0 :: t)).2 ∧
      (∀ tail, decodeRune ((s0 :: t).take (decodeRune (s0 :: t)).2 ++ tail)
        = decodeRune (s0 :: t))) := by
  have hns : ¬ s0 < runeSelf := by simp [runeSelf]; omega
  cases hfi : firstInfo s0 with
  | none => left; simp [decodeRune, hns, hfi]
  | some q =>
    obtain ⟨sz, lo, hi⟩ := q
    rcases firstInfo_some s0 sz lo hi hfi with ⟨rfl, h1, h2, rfl, rfl⟩ | ⟨rfl, h1, h2, h3, h4, h5, h6⟩ | ⟨rfl, h1, h2, h3, h4, h5, h6⟩
    · -- two bytes
      rcases t with _ | ⟨s1, t1⟩
      · left; simp [decodeRune, hns, hfi]
      · by_cases hb : s1 < 0x80 ∨ 0xBF < s1
        · left; simp [decodeRune, hns, hfi, hb]
        · right
          have hd : ∀ tail, decodeRune (s0 :: s1 :: tail) = (s0 % 32 * 64 + s1 % 64, 2) := by
            intro tail; simp [decodeRune, hns, hfi, hb]
          rw [hd t1]
          refine ⟨le_refl _, by simp, by omega, ?_, ?_⟩
          · have e1 : ¬ (s0 % 32 * 64 + s1 % 64 ≤ 0x7F) := by omega
            have e2 : s0 % 32 * 64 + s1 % 64 ≤ 0x7FF := by omega
            simp only [encodeRune, e1, e2, if_false, if_true, List.take_succ_cons, List.take_zero]
            congr 1
            · omega
            · congr 1; omega
          · intro tail; simpa using hd (t1.take 0 ++ tail)
    · -- three bytes
      rcases t with _ | ⟨s1, _ | ⟨s2, t2⟩⟩
      · left; simp [decodeRune, hns, hfi]
      · left; simp [decodeRune, hns, hfi]
      · by_cases hb : s1 < lo ∨ hi < s1
        · left; simp [decodeRune, hns, hfi, hb]
        · by_cases hc : s2 < 0x80 ∨ 0xBF < s2
          · left; simp [decodeRune, hns, hfi, hb, hc]
          · right
            have hd : ∀ tail, decodeRune (s0 :: s1 :: s2 :: tail)
                = (s0 % 16 * 4096 + s1 % 64 * 64 + s2 % 64, 3) := by
              intro tail; simp [decodeRune, hns, hfi, hb, hc]
            rw [hd t2]
            refine ⟨by simp, by simp, by omega, ?_, ?_⟩
            · have e1 : ¬ (s0 % 16 * 4096 + s1 % 64 * 64 + s2 % 64 ≤ 0x7F) := by omega
              have e2 : ¬ (s0 % 16 * 4096 + s1 % 64 * 64 + s2 % 64 ≤ 0x7FF) := by omega
              have e3 : ¬ (0x10FFFF < s0 % 16 * 4096 + s1 % 64 * 64 + s2 % 64 ∨
                  (0xD800 ≤ s0 % 16 * 4096 + s1 % 64 * 64 + s2 % 64 ∧
                    s0 % 16 * 4096 + s1 % 64 * 64 + s2 % 64 ≤ 0xDFFF)) := by omega
              have e4 : s0 % 16 * 4096 + s1 % 64 * 64 + s2 % 64 ≤ 0xFFFF := by omega
              simp only [encodeRune, e1, e2, e3, e4, if_false, if_true, List.take_succ_cons,
                List.take_zero]
              congr 1
              · omega
              · congr 1
                · omega
                · congr 1; omega
            · intro tail; simpa using hd (t2.take 0 ++ tail)
    · -- four bytes
      rcases t with _ | ⟨s1, _ | ⟨s2, _ | ⟨s3, t3⟩⟩⟩
      · left; simp [decodeRune, hns, hfi]
      · left; simp [decodeRune, hns, hfi]
      · left; simp [decodeRune, hns, hfi]
      · by_cases hb : s1 < lo ∨ hi < s1
        · left; simp [decodeRune, hns, hfi, hb]
        · by_cases hc : s2 < 0x80 ∨ 0xBF < s2
          · left; simp [decodeRune, hns, hfi, hb, hc]
          · by_cases he : s3 < 0x80 ∨ 0xBF < s3
            · left; simp [decodeRune, hns, hfi, hb, hc, he]
            · right
              have hd : ∀ tail, decodeRune (s0 :: s1 :: s2 :: s3 :: tail)
                  = (s0 % 8 * 262144 + s1 % 64 * 4096 + s2 % 64 * 64 + s3 % 64, 4) := by
                intro tail; simp [decodeRune, hns, hfi, hb, hc, he]
              rw [hd t3]
              refine ⟨by simp, by simp, by omega, ?_, ?_⟩
              · have e1 : ¬ (s0 % 8 * 262144 + s1 % 64 * 4096 + s2 % 64 * 64 + s3 % 64 ≤ 0x7F) := by
                  omega
                have e2 : ¬ (s0 % 8 * 262144 + s1 % 64 * 4096 + s2 % 64 * 64 + s3 % 64 ≤ 0x7FF) := by
                  omega
                have e3 : ¬ (0x10FFFF < s0 % 8 * 262144 + s1 % 64 * 4096 + s2 % 64 * 64 + s3 % 64 ∨
                    (0xD800 ≤ s0 % 8 * 262144 + s1 % 64 * 4096 + s2 % 64 * 64 + s3 % 64 ∧
                      s0 % 8 * 262144 + s1 % 64 * 4096 + s2 % 64 * 64 + s3 % 64 ≤ 0xDFFF)) := by
                  omega
                have e4 : ¬ (s0 % 8 * 262144 + s1 % 64 * 4096 + s2 % 64 * 64 + s3 % 64 ≤ 0xFFFF) := by
                  omega
                simp only [encodeRune, e1, e2, e3, e4, if_false, List.take_succ_cons,
                  List.take_zero]
                congr 1
                · omega
                · congr 1
                  · omega
                  · congr 1
                    · omega
                    · congr 1; omega
              · intro tail; simpa using hd (t3.take 0 ++ tail)

theorem parse_ufffd (f : Nat) (tail : GoString) :
    parseStringBody (f + 1) ([0x5C, 0x75, 0x66, 0x66, 0x66, 0x64] ++ tail)
      = (parseStringBody f tail).map (fun q => ([0xEF, 0xBF, 0xBD] ++ q.1, q.2)) := by
  simp [parseStringBody, getu4, hexVal, isSurrogate, encodeRune, runeError]

theorem decodeRune_runeError (tail : GoString) :
    decodeRune (0xEF :: 0xBF :: 0xBD :: tail) = (0xFFFD, 3) := by
  simp [decodeRune, firstInfo, runeSelf]

theorem parse_runeErrorOutput (tc : Toolchain) (f : Nat) (tail : GoString) :
    parseStringBody (f + 1) (runeErrorOutput tc ++ tail)
      = (parseStringBody f tail).map (fun q => ([0xEF, 0xBF, 0xBD] ++ q.1, q.2)) := by
  unfold runeErrorOutput
  cases tc.rawRuneError
  · exact parse_ufffd f tail
  · have hd := decodeRune_runeError tail
    have he : encodeRune 0xFFFD = [0xEF, 0xBF, 0xBD] := by decide
    simp [parseStringBody, hd, he, runeSelf]

theorem runeErrorOutput_length (tc : Toolchain) : 1 ≤ (runeErrorOutput tc).length := by
  unfold runeErrorOutput
  cases tc.rawRuneError <;> simp

theorem parse_u202x (c : Nat) (hc : c = 0x2028 ∨ c = 0x2029) (f : Nat) (tail : GoString) :
    parseStringBody (f + 1) ([0x5C, 0x75, 0x32, 0x30, 0x32, hexDigit (c % 16)] ++ tail)
      = (parseStringBody f tail).map (fun q => (encodeRune c ++ q.1, q.2)) := by
  rcases hc with rfl | rfl <;>
    simp [parseStringBody, getu4, hexVal, hexDigit, isSurrogate, encodeRune, runeError]

theorem parse_raw (b : Nat) (t : GoString) (hb : 0x80 ≤ b)
    (hv : decodeRune (b :: t) ≠ (runeError, 1)) (f : Nat) (tail : GoString) :
    parseStringBody (f + 1) ((b :: t).take (decodeRune (b :: t)).2 ++ tail)
      = (parseStringBody f tail).map
          (fun q => ((b :: t).take (decodeRune (b :: t)).2 ++ q.1, q.2)) := by
  rcases decodeRune_multi b t hb with h | ⟨h2, hlen, _, henc, htail⟩
  · exact absurd h hv
  · obtain ⟨j, hj⟩ : ∃ j, (decodeRune (b :: t)).2 = j + 1 := ⟨(decodeRune (b :: t)).2 - 1, by omega⟩
    have hjl : j ≤ t.length := by
      rw [hj] at hlen
      simpa using hlen
    have ht := htail tail
    rw [hj] at ht henc ⊢
    simp only [List.take_succ_cons, List.cons_append] at ht henc ⊢
    have h1 : ¬ b = 0x22 := by omega
    have h3 : ¬ b = 0x5C := by omega
    have h4 : ¬ b < 0x20 := by omega
    have h5 : ¬ b < runeSelf := by simp [runeSelf]; omega
    have hdrop : List.drop j (List.take j t ++ tail) = tail := by
      rw [List.drop_append_of_le_length (by simp [hjl])]
      simp [List.drop_take, hjl]
    simp only [parseStringBody, h1, h3, h4, h5, if_false, ht, hj, List.drop_succ_cons, hdrop, henc]
    rfl

theorem parse_escapeLoop (tc : Toolchain) : ∀ (n : Nat) (v : GoString) (m fuel : Nat) (rest : GoString),
    v.length ≤ n → v.length ≤ m → v.length < fuel →
    parseStringBody fuel (escapeLoop tc m v ++ 0x22 :: rest) = some (coerceLoop m v, rest) := by
  intro n
  induction n with
  | zero =>
    intro v m fuel rest hn _ hf
    have hv : v = [] := List.length_eq_zero.mp (Nat.le_zero.mp hn)
    subst hv
    obtain ⟨f, rfl⟩ : ∃ f, fuel = f + 1 := ⟨fuel - 1, by simp at hf; omega⟩
    cases m <;> simp [escapeLoop, coerceLoop, parseStringBody]
  | succ n ih =>
    intro v m fuel rest hn hm hf
    rcases v with _ | ⟨b, t⟩
    · obtain ⟨f, rfl⟩ : ∃ f, fuel = f + 1 := ⟨fuel - 1, by simp at hf; omega⟩
      cases m <;> simp [escapeLoop, coerceLoop, parseStringBody]
    · simp only [List.length_cons] at hn hm hf
      obtain ⟨f, rfl⟩ : ∃ f, fuel = f + 1 := ⟨fuel - 1, by omega⟩
      obtain ⟨m, rfl⟩ : ∃ m1, m = m1 + 1 := ⟨m - 1, by omega⟩
      by_cases hb : b < 0x80
      · -- ASCII
        have hrs : b < runeSelf := by simpa [runeSelf] using hb
        have hd : decodeRune (b :: t) = (b, 1) := decodeRune_ascii b t hb
        have hne : ¬ (b = runeError) := by simp [runeError]; omega
        have hco : coerceLoop (m + 1) (b :: t) = b :: coerceLoop m t := by
          simp [coerceLoop, hd, hne]
        have hih := ih t m f rest (by omega) (by omega) (by omega)
        rw [hco]
        cases hs : htmlSafeSet b with
        | true =>
          have hs2 := hs
          simp [htmlSafeSet] at hs2
          have h1 : ¬ b = 0x22 := by omega
          have h3 : ¬ b = 0x5C := by omega
          have h4 : ¬ b < 0x20 := by omega
          simp only [escapeLoop, hrs, if_true, hs, List.cons_append, parseStringBody, h1, h3, h4,
            if_false, hih, Option.map_some']
        | false =>
          simp only [escapeLoop, hrs, if_true, hs, Bool.false_eq_true, if_false,
            List.append_assoc]
          rw [parse_escapeByte b hb hs, hih]
          rfl
      · -- multi-byte or invalid
        have hb2 : 0x80 ≤ b := by omega
        have hrs : ¬ b < runeSelf := by simpa [runeSelf] using hb
        have htk : decodeRune ((b :: t).take utfMax) = decodeRune (b :: t) :=
          decodeRune_take (b :: t)
        by_cases hinv : (decodeRune (b :: t)).1 = runeError ∧ (decodeRune (b :: t)).2 = 1
        · have hih := ih t m f rest (by omega) (by omega) (by omega)
          simp only [escapeLoop, hrs, if_false, htk, hinv, and_self, if_true, coerceLoop,
            List.append_assoc]
          rw [parse_runeErrorOutput, hih]
          rfl
        · have hv : decodeRune (b :: t) ≠ (runeError, 1) := by
            intro h
            rw [h] at hinv
            simp at hinv
          rcases decodeRune_multi b t hb2 with h | ⟨h2, hlen, _, henc, _⟩
          · exact absurd h hv
          · have hdl : ((b :: t).drop (decodeRune (b :: t)).2).length
                = t.length + 1 - (decodeRune (b :: t)).2 := by
              simp only [List.length_drop, List.length_cons]
            have hih := ih ((b :: t).drop (decodeRune (b :: t)).2) m f rest
              (by omega) (by omega) (by omega)
            by_cases hls : (decodeRune (b :: t)).1 = 0x2028 ∨ (decodeRune (b :: t)).1 = 0x2029
            · simp only [escapeLoop, hrs, if_false, htk, hinv, hls, if_true, coerceLoop,
                List.append_assoc]
              rw [parse_u202x _ hls, hih, henc]
              rfl
            · simp only [escapeLoop, hrs, if_false, htk, hinv, hls, coerceLoop,
                List.append_assoc]
              rw [parse_raw b t hb2 hv, hih]
              rfl

theorem escapeByte_length (b : Nat) : 1 ≤ (escapeByte b).length := by
  unfold escapeByte
  split_ifs <;> simp

theorem length_le_escapeLoop (tc : Toolchain) : ∀ (n : Nat) (v : GoString) (m : Nat),
    v.length ≤ n → v.length ≤ m → v.length ≤ (escapeLoop tc m v).length := by
  intro n
  induction n with
  | zero =>
    intro v m hn _
    have hv : v = [] := List.length_eq_zero.mp (Nat.le_zero.mp hn)
    subst hv
    simp
  | succ n ih =>
    intro v m hn hm
    rcases v with _ | ⟨b, t⟩
    · simp
    · simp only [List.length_cons] at hn hm
      obtain ⟨m, rfl⟩ : ∃ m1, m = m1 + 1 := ⟨m - 1, by omega⟩
      by_cases hb : b < 0x80
      · have hrs : b < runeSelf := by simpa [runeSelf] using hb
        have hih := ih t m (by omega) (by omega)
        have he := escapeByte_length b
        simp only [escapeLoop, hrs, if_true]
        split <;> simp only [List.length_cons, List.length_append] <;> omega
      · have hb2 : 0x80 ≤ b := by omega
        have hrs : ¬ b < runeSelf := by simpa [runeSelf] using hb
        have htk : decodeRune ((b :: t).take utfMax) = decodeRune (b :: t) :=
          decodeRune_take (b :: t)
        by_cases hinv : (decodeRune (b :: t)).1 = runeError ∧ (decodeRune (b :: t)).2 = 1
        · have hih := ih t m (by omega) (by omega)
          have hro := runeErrorOutput_length tc
          simp only [escapeLoop, hrs, if_false, htk, hinv, and_self, if_true,
            List.length_cons, List.length_append, List.length_nil]
          omega
        · have hv : decodeRune (b :: t) ≠ (runeError, 1) := by
            intro h
            rw [h] at hinv
            simp at hinv
          rcases decodeRune_multi b t hb2 with h | ⟨h2, hlen, _, henc, _⟩
          · exact absurd h hv
          · have hdl : ((b :: t).drop (decodeRune (b :: t)).2).length
                = t.length + 1 - (decodeRune (b :: t)).2 := by
              simp only [List.length_drop, List.length_cons]
            have htl : ((b :: t).take (decodeRune (b :: t)).2).length
                = (decodeRune (b :: t)).2 := by
              rw [List.length_take]
              exact Nat.min_eq_left hlen
            have hih := ih ((b :: t).drop (decodeRune (b :: t)).2) m (by omega) (by omega)
            simp only [List.length_cons] at hlen
            by_cases hls : (decodeRune (b :: t)).1 = 0x2028 ∨ (decodeRune (b :: t)).1 = 0x2029
            · have hk : (decodeRune (b :: t)).2 = 3 := by
                rw [← htl, ← henc]
                rcases hls with h | h <;> rw [h] <;> rfl
              simp only [escapeLoop, hrs, if_false, htk, hinv, hls, if_true,
                List.length_cons, List.length_append, List.length_nil]
              omega
            · simp only [escapeLoop, hrs, if_false, htk, hinv, hls, List.length_append, htl,
                List.length_cons]
              omega

theorem coerceLoop_valid : ∀ (m : Nat) (v : GoString),
    validLoop m v = true → coerceLoop m v = v := by
  intro m
  induction m with
  | zero =>
    intro v hv
    cases v with
    | nil => rfl
    | cons b t => simp [validLoop] at hv
  | succ m ih =>
    intro v hv
    cases v with
    | nil => rfl
    | cons b t =>
      simp only [validLoop] at hv
      split at hv
      · simp at hv
      · next hinv =>
        simp only [coerceLoop, hinv, if_false]
        rw [ih _ hv]
        exact List.take_append_drop _ _

theorem parseString_appendString (tc : Toolchain) (v rest : GoString) :
    parseString (appendString tc v ++ rest) = some (coerceLoop v.length v, rest) := by
  have hlen := length_le_escapeLoop tc v.length v v.length (le_refl _) (le_refl _)
  simp only [appendString, List.singleton_append, List.cons_append, List.append_assoc,
    parseString, if_true]
  exact parse_escapeLoop tc v.length v v.length _ rest (le_refl _) (le_refl _)
    (by simp only [List.length_append, List.length_cons]; omega)

theorem appendString_eq_cons (tc : Toolchain) (v : GoString) :
    appendString tc v = 0x22 :: (escapeLoop tc v.length v ++ [0x22]) := rfl

theorem parseString_appendString_coerce (tc : Toolchain) (v rest : GoString) :
    parseString (appendString tc v ++ rest) = some (coerceUTF8 v, rest) :=
  parseString_appendString tc v rest

theorem parseValue_appendString (tc : Toolchain) (k : Nat) (v rest : GoString) :
    parseValue (k + 1) (appendString tc v ++ rest) = some (JValue.string (coerceUTF8 v), rest) := by
  have h := parseString_appendString_coerce tc v rest
  rw [appendString_eq_cons] at h ⊢
  simp only [List.cons_append] at h ⊢
  simp only [parseValue]
  rw [h]
  simp

theorem skipSpace_appendString (tc : Toolchain) (v t : GoString) :
    skipSpace (appendString tc v ++ t) = appendString tc v ++ t := by
  rw [appendString_eq_cons]; simp [skipSpace, isSpace]

theorem skipSpace_colon (t : GoString) : skipSpace (0x3A :: t) = 0x3A :: t := by
  simp [skipSpace, isSpace]

theorem skipSpace_comma (t : GoString) : skipSpace (0x2C :: t) = 0x2C :: t := by
  simp [skipSpace, isSpace]

theorem skipSpace_closeBrace (t : GoString) : skipSpace (0x7D :: t) = 0x7D :: t := by
  simp [skipSpace, isSpace]

theorem parseMembers_last (tc : Toolchain) (k : Nat) (key v rest : GoString) :
    parseMembers (k + 1 + 1) (appendString tc key ++ 0x3A :: (appendString tc v ++ 0x7D :: rest))
      = some ([(coerceUTF8 key, JValue.string (coerceUTF8 v))], rest) := by
  rw [parseMembers, parseString_appendString_coerce]
  simp only [skipSpace_colon, if_true, skipSpace_appendString, parseValue_appendString,
    skipSpace_closeBrace]

theorem parseMembers_health (tc : Toolchain) (k : Nat) (hr : HealthResponse) (rest : GoString) :
    parseMembers (k + 2 + 1)
        (appendString tc (ascii "status") ++ 0x3A :: (appendString tc hr.Status ++
          0x2C :: (appendString tc (ascii "version") ++ 0x3A :: (appendString tc hr.Version ++
            0x7D :: rest))))
      = some ([(ascii "status", JValue.string (coerceUTF8 hr.Status)),
               (ascii "version", JValue.string (coerceUTF8 hr.Version))], rest) := by
  have c1 : coerceUTF8 (ascii "status") = ascii "status" := by decide
  have c2 : coerceUTF8 (ascii "version") = ascii "version" := by decide
  rw [parseMembers, parseString_appendString_coerce]
  simp only [skipSpace_colon, if_true, skipSpace_appendString, parseValue_appendString,
    skipSpace_comma, show ¬ ((0x2C : Nat) = 0x7D) by decide, if_false, parseMembers_last, c1, c2,
    Option.map_some']

theorem marshal_eq (tc : Toolchain) (hr : HealthResponse) :
    marshalHealthResponse tc hr = 0x7B :: (appendString tc (ascii "status") ++ 0x3A ::
      (appendString tc hr.Status ++ 0x2C :: (appendString tc (ascii "version") ++ 0x3A ::
        (appendString tc hr.Version ++ [0x7D])))) := by
  have k0 : ascii "\x7b" = [0x7B] := by decide
  have k1 : ascii "\"status\":" = appendString tc (ascii "status") ++ [0x3A] := by
    rcases tc with ⟨_ | _⟩ <;> decide
  have k2 : ascii "," = [0x2C] := by decide
  have k3 : ascii "\"version\":" = appendString tc (ascii "version") ++ [0x3A] := by
    rcases tc with ⟨_ | _⟩ <;> decide
  have k4 : ascii "\x7d" = [0x7D] := by decide
  unfold marshalHealthResponse
  rw [k0, k1, k2, k3, k4]
  simp [List.append_assoc]

theorem parseJSON_encoderEncode (tc : Toolchain) (hr : HealthResponse) :
    parseJSON (encoderEncode tc hr)
      = some (JValue.object [(ascii "status", JValue.string (coerceUTF8 hr.Status)),
               (ascii "version", JValue.string (coerceUTF8 hr.Version))]) := by
  have hm := marshal_eq tc hr
  have hlen : 3 ≤ (encoderEncode tc hr).length := by
    unfold encoderEncode
    rw [hm, appendString_eq_cons]
    simp only [List.length_cons, List.length_append]
    omega
  obtain ⟨k, hk⟩ : ∃ k, (encoderEncode tc hr).length + 1 = k + 3 + 1 :=
    ⟨(encoderEncode tc hr).length - 3, by omega⟩
  have hsk : skipSpace (encoderEncode tc hr) = encoderEncode tc hr := by
    unfold encoderEncode
    rw [hm]
    simp [skipSpace, isSpace]
  have hs0 : ∀ t, skipSpace (appendString tc (ascii "status") ++ t)
      = appendString tc (ascii "status") ++ t := by
    intro t; rw [appendString_eq_cons]; simp [skipSpace, isSpace]
  have hpm := parseMembers_health tc k hr [0x0A]
  have hpv : parseValue (k + 3 + 1) (encoderEncode tc hr) = some
      (JValue.object [(ascii "status", JValue.string (coerceUTF8 hr.Status)),
               (ascii "version", JValue.string (coerceUTF8 hr.Version))], [0x0A]) := by
    unfold encoderEncode
    rw [hm]
    simp only [List.cons_append, List.append_assoc, List.singleton_append]
    rw [parseValue]
    simp only [if_true, hs0]
    rw [appendString_eq_cons tc (ascii "status")] at hpm ⊢
    simp only [List.cons_append] at hpm ⊢
    simp only [show ¬ ((0x22 : Nat) = 0x7D) by decide, if_false, List.nil_append]
    exact congrArg (Option.map (fun q => (JValue.object q.1, q.2))) hpm
  unfold parseJSON
  rw [hk, hsk, hpv]
  simp [skipSpace, isSpace]

theorem validLoop_coerceLoop : ∀ (n : Nat) (v : GoString) (m f : Nat),
    v.length ≤ n → v.length ≤ m → v.length ≤ f → validLoop f (coerceLoop m v) = true := by
  intro n
  induction n with
  | zero =>
    intro v m f hn _ _
    have hv : v = [] := List.length_eq_zero.mp (Nat.le_zero.mp hn)
    subst hv
    cases m <;> cases f <;> simp [coerceLoop, validLoop]
  | succ n ih =>
    intro v m f hn hm hf
    rcases v with _ | ⟨b, t⟩
    · cases m <;> cases f <;> simp [coerceLoop, validLoop]
    · simp only [List.length_cons] at hn hm hf
      obtain ⟨f, rfl⟩ : ∃ f1, f = f1 + 1 := ⟨f - 1, by omega⟩
      obtain ⟨m, rfl⟩ : ∃ m1, m = m1 + 1 := ⟨m - 1, by omega⟩
      by_cases hinv : (decodeRune (b :: t)).1 = runeError ∧ (decodeRune (b :: t)).2 = 1
      · have hih := ih t m f (by omega) (by omega) (by omega)
        have hd : ∀ tail, decodeRune (0xEF :: 0xBF :: 0xBD :: tail) = (0xFFFD, 3) := by
          intro tail
          simp [decodeRune, firstInfo, runeSelf]
        simp only [coerceLoop, hinv, and_self, if_true, List.cons_append, List.nil_append,
          validLoop, hd, List.drop_succ_cons, List.drop_zero, hih]
        simp [runeError]
      · have hdl : ((b :: t).drop (decodeRune (b :: t)).2).length
            = t.length + 1 - (decodeRune (b :: t)).2 := by
          simp only [List.length_drop, List.length_cons]
        have hkey : ∃ j, (decodeRune (b :: t)).2 = j + 1 ∧ j ≤ t.length ∧
            ∀ tail, decodeRune (b :: (t.take j ++ tail)) = decodeRune (b :: t) := by
          by_cases hb : b < 0x80
          · refine ⟨0, ?_, by omega, ?_⟩
            · rw [decodeRune_ascii b t hb]
            · intro tail
              rw [decodeRune_ascii b t hb, List.take_zero, List.nil_append,
                decodeRune_ascii b tail hb]
          · rcases decodeRune_multi b t (by omega) with h | ⟨h2, hlen, _, _, htail⟩
            · rw [h] at hinv
              simp at hinv
            · refine ⟨(decodeRune (b :: t)).2 - 1, by omega, ?_, ?_⟩
              · simp only [List.length_cons] at hlen
                omega
              · intro tail
                have := htail tail
                rw [show (decodeRune (b :: t)).2 = ((decodeRune (b :: t)).2 - 1) + 1 by omega,
                  List.take_succ_cons, List.cons_append] at this
                exact this
        obtain ⟨j, hj, hjl, htail⟩ := hkey
        have hih := ih ((b :: t).drop (decodeRune (b :: t)).2) m f
          (by omega) (by omega) (by omega)
        have hdrop : ∀ tail, List.drop j (List.take j t ++ tail) = tail := by
          intro tail
          rw [List.drop_append_of_le_length (by simp [hjl])]
          simp [List.drop_take, hjl]
        simp only [coerceLoop, hinv, if_false]
        rw [hj] at hih ⊢
        simp only [List.take_succ_cons, List.cons_append, validLoop, List.append_eq, htail, hinv,
          if_false, hj, List.drop_succ_cons, hdrop] at hih ⊢
        have hinv2 : ¬ ((decodeRune (b :: t)).1 = runeError ∧ j + 1 = 1) := by
          rw [← hj]
          exact hinv
        rw [if_neg hinv2]
        exact hih

theorem length_le_coerceLoop : ∀ (m : Nat) (v : GoString),
    v.length ≤ m → v.length ≤ (coerceLoop m v).length := by
  intro m
  induction m with
  | zero =>
    intro v hv
    have : v = [] := List.length_eq_zero.mp (Nat.le_zero.mp hv)
    subst this
    simp
  | succ m ih =>
    intro v hv
    rcases v with _ | ⟨b, t⟩
    · simp
    · simp only [List.length_cons] at hv
      simp only [coerceLoop]
      split
      · have := ih t (by omega)
        simp only [List.length_cons, List.length_append, List.length_nil]
        omega
      · next hinv =>
        have h1 : 1 ≤ (decodeRune (b :: t)).2 := by
          by_cases hb : b < 0x80
          · rw [decodeRune_ascii b t hb]
          · rcases decodeRune_multi b t (by omega) with h | ⟨h2, _⟩
            · rw [h]
            · omega
        have hdl : ((b :: t).drop (decodeRune (b :: t)).2).length
            = t.length + 1 - (decodeRune (b :: t)).2 := by
          simp only [List.length_drop, List.length_cons]
        have := ih ((b :: t).drop (decodeRune (b :: t)).2) (by omega)
        have h3 := congrArg List.length (List.take_append_drop (decodeRune (b :: t)).2 (b :: t))
        simp only [List.length_append, List.length_cons] at h3 ⊢
        omega

theorem validString_coerceUTF8 (v : GoString) : validString (coerceUTF8 v) = true := by
  unfold validString coerceUTF8
  exact validLoop_coerceLoop v.length v v.length _ (le_refl _) (le_refl _)
    (length_le_coerceLoop v.length v (le_refl _))

theorem coerceUTF8_valid (v : GoString) (h : validString v = true) : coerceUTF8 v = v :=
  coerceLoop_valid v.length v h

theorem coerceUTF8_idem (v : GoString) : coerceUTF8 (coerceUTF8 v) = coerceUTF8 v :=
  coerceUTF8_valid _ (validString_coerceUTF8 v)

theorem unmarshal_encoderEncode (tc : Toolchain) (hr : HealthResponse) :
    unmarshalHealthResponse (encoderEncode tc hr)
      = some { Status := coerceUTF8 hr.Status, Version := coerceUTF8 hr.Version } := by
  have f1 : fieldForKey (ascii "status") = some HealthField.status := by decide
  have f2 : fieldForKey (ascii "version") = some HealthField.version := by decide
  unfold unmarshalHealthResponse
  rw [parseJSON_encoderEncode]
  simp [storeMember, f1, f2]

theorem coerceUTF8_healthy : coerceUTF8 (ascii "healthy") = ascii "healthy" := by decide

theorem muxHandler_connect (r : Request) (hm : r.method = ascii "CONNECT") :
    muxHandler appMux r = muxLookup appMux r.path := by
  unfold muxHandler
  simp [hm, shouldRedirect_appMux]

theorem muxHandler_other (r : Request) (hm : r.method ≠ ascii "CONNECT") :
    muxHandler appMux r =
      if cleanPath r.path = r.path then muxLookup appMux r.path
      else Route.redirect (cleanPath r.path) := by
  unfold muxHandler
  simp only [hm, if_false, shouldRedirect_appMux, Bool.false_eq_true]
  by_cases hc : cleanPath r.path = r.path <;> simp [hc]

theorem muxHandler_same (r1 r2 : Request) (hp : r1.path = r2.path)
    (hc : (r1.method = ascii "CONNECT" ↔ r2.method = ascii "CONNECT") ∨
      cleanPath r1.path = r1.path) :
    muxHandler appMux r1 = muxHandler appMux r2 := by
  by_cases c1 : r1.method = ascii "CONNECT" <;> by_cases c2 : r2.method = ascii "CONNECT"
  · rw [muxHandler_connect r1 c1, muxHandler_connect r2 c2, hp]
  · rcases hc with hc | hc
    · exact absurd (hc.mp c1) c2
    · rw [muxHandler_connect r1 c1, muxHandler_other r2 c2, ← hp, if_pos hc]
  · rcases hc with hc | hc
    · exact absurd (hc.mpr c2) c1
    · rw [muxHandler_other r1 c1, muxHandler_connect r2 c2, if_pos hc, hp]
  · rw [muxHandler_other r1 c1, muxHandler_other r2 c2, hp]

theorem serve_same (tc : Toolchain) (v : GoString) (r1 r2 : Request)
    (hm : muxHandler appMux r1 = muxHandler appMux r2) : serve tc v r1 = serve tc v r2 := by
  unfold serve
  rw [hm]
  cases muxHandler appMux r2 with
  | handler h => simp only [runHandler_indep tc v h r1 r2]
  | redirect p => rfl
  | notFound => rfl

theorem serve_rooted_connect (tc : Toolchain) (v : GoString) (r : Request)
    (hm : r.method = ascii "CONNECT") (hr : r.path.head? = some 0x2F)
    (h : r.path ≠ ascii "/health") :
    serve tc v r = ServeResult.handled HandlerId.root
      { status := 200, header := [], body := rootBody } := by
  have hl : muxLookup appMux r.path = Route.handler HandlerId.root := by
    cases hp : r.path with
    | nil => rw [hp] at hr; simp at hr
    | cons a t =>
      rw [hp] at hr h
      simp only [List.head?_cons, Option.some.injEq] at hr
      subst hr
      exact muxLookup_rooted t h
  simp [serve, muxHandler_connect r hm, hl, runHandler_root]

theorem serve_redirect (tc : Toolchain) (v : GoString) (r : Request)
    (hm : r.method ≠ ascii "CONNECT") (hc : cleanPath r.path ≠ r.path) :
    serve tc v r = ServeResult.muxRedirect (cleanPath r.path) := by
  simp [serve, muxHandler_other r hm, hc]

theorem wireResponse_status (r : Request) (res : Response) :
    (wireResponse r res).status = res.status ∧ (wireResponse r res).header = res.header := by
  unfold wireResponse
  split <;> simp

theorem wireResponse_same (r1 r2 : Request) (res : Response)
    (hh : r1.method = ascii "HEAD" ↔ r2.method = ascii "HEAD") :
    wireResponse r1 res = wireResponse r2 res := by
  unfold wireResponse
  by_cases h1 : r1.method = ascii "HEAD"
  · simp [h1, hh.mp h1]
  · have h2 : ¬ r2.method = ascii "HEAD" := fun h => h1 (hh.mpr h)
    simp [h1, h2]

theorem decodeRune_valid_prefix (b : Nat) (t : GoString)
    (hinv : ¬ ((decodeRune (b :: t)).1 = runeError ∧ (decodeRune (b :: t)).2 = 1)) :
    ∃ j, (decodeRune (b :: t)).2 = j + 1 ∧ j ≤ t.length ∧
      ∀ tail, decodeRune (b :: (t.take j ++ tail)) = decodeRune (b :: t) := by
  by_cases hb : b < 0x80
  · refine ⟨0, ?_, by omega, ?_⟩
    · rw [decodeRune_ascii b t hb]
    · intro tail
      rw [decodeRune_ascii b t hb, List.take_zero, List.nil_append,
        decodeRune_ascii b tail hb]
  · rcases decodeRune_multi b t (by omega) with h | ⟨h2, hlen, _, _, htail⟩
    · rw [h] at hinv
      simp at hinv
    · refine ⟨(decodeRune (b :: t)).2 - 1, by omega, ?_, ?_⟩
      · simp only [List.length_cons] at hlen
        omega
      · intro tail
        have := htail tail
        rw [show (decodeRune (b :: t)).2 = ((decodeRune (b :: t)).2 - 1) + 1 by omega,
          List.take_succ_cons, List.cons_append] at this
        exact this

theorem escapeLoop_coerceLoop (tc : Toolchain) (hraw : tc.rawRuneError = true) :
    ∀ (n : Nat) (v : GoString) (m1 m2 m3 : Nat), v.length ≤ n → v.length ≤ m1 →
      v.length ≤ m2 → v.length ≤ m3 →
      escapeLoop tc m3 (coerceLoop m1 v) = escapeLoop tc m2 v := by
  intro n
  induction n with
  | zero =>
    intro v m1 m2 m3 hn _ _ _
    have hv : v = [] := List.length_eq_zero.mp (Nat.le_zero.mp hn)
    subst hv
    cases m1 <;> cases m2 <;> cases m3 <;> simp [coerceLoop, escapeLoop]
  | succ n ih =>
    intro v m1 m2 m3 hn h1 h2 h3
    rcases v with _ | ⟨b, t⟩
    · cases m1 <;> cases m2 <;> cases m3 <;> simp [coerceLoop, escapeLoop]
    · simp only [List.length_cons] at hn h1 h2 h3
      obtain ⟨m1, rfl⟩ : ∃ k, m1 = k + 1 := ⟨m1 - 1, by omega⟩
      obtain ⟨m2, rfl⟩ : ∃ k, m2 = k + 1 := ⟨m2 - 1, by omega⟩
      obtain ⟨m3, rfl⟩ : ∃ k, m3 = k + 1 := ⟨m3 - 1, by omega⟩
      have htk : ∀ l, decodeRune (List.take utfMax l) = decodeRune l := decodeRune_take
      by_cases hinv : (decodeRune (b :: t)).1 = runeError ∧ (decodeRune (b :: t)).2 = 1
      · have hb : ¬ b < runeSelf := by
          intro hb
          rw [decodeRune_ascii b t (by simpa [runeSelf] using hb)] at hinv
          simp only [runeSelf, runeError] at hb hinv
          omega
        have hih := ih t m1 m2 m3 (by omega) (by omega) (by omega) (by omega)
        have hd := decodeRune_runeError (coerceLoop m1 t)
        have hE : ¬ ((0xEF : Nat) < runeSelf) := by simp [runeSelf]
        have hro : runeErrorOutput tc = [0xEF, 0xBF, 0xBD] := by simp [runeErrorOutput, hraw]
        simp only [coerceLoop, hinv, and_self, if_true, List.cons_append, List.nil_append,
          escapeLoop, hE, if_false, htk, hd, hb, hro, List.drop_succ_cons, List.drop_zero,
          List.take_succ_cons, List.take_zero, hih]
        simp [runeError]
      · obtain ⟨j, hj, hjl, htail⟩ := decodeRune_valid_prefix b t hinv
        have hdl : ((b :: t).drop (decodeRune (b :: t)).2).length
            = t.length + 1 - (decodeRune (b :: t)).2 := by
          simp only [List.length_drop, List.length_cons]
        have hih := ih ((b :: t).drop (decodeRune (b :: t)).2) m1 m2 m3
          (by omega) (by omega) (by omega) (by omega)
        have hdrop : ∀ tail, List.drop j (List.take j t ++ tail) = tail := by
          intro tail
          rw [List.drop_append_of_le_length (by simp [hjl])]
          simp [List.drop_take, hjl]
        have htake : ∀ tail, List.take j (List.take j t ++ tail) = List.take j t := by
          intro tail
          rw [List.take_append_of_le_length (by simp [hjl])]
          simp
        have hinv2 : ¬ ((decodeRune (b :: t)).1 = runeError ∧ j + 1 = 1) := by
          rw [← hj]
          exact hinv
        rw [hj] at hih
        simp only [coerceLoop, hinv, if_false, hj, List.take_succ_cons, List.cons_append,
          List.drop_succ_cons] at hih ⊢
        simp only [escapeLoop, htk, htail, hj, hinv2, if_false, List.drop_succ_cons, hdrop,
          List.take_succ_cons, htake, hih]
        by_cases hb : b < runeSelf
        · have hj0 : j = 0 := by
            rw [decodeRune_ascii b t (by simpa [runeSelf] using hb)] at hj
            simp only at hj
            omega
          subst hj0
          simp only [List.take_zero, List.nil_append, List.drop_zero] at hih ⊢
          simp only [hb, if_true, hih]
        · simp only [hb, if_false]

theorem appendString_coerceUTF8 (tc : Toolchain) (hraw : tc.rawRuneError = true)
    (v : GoString) : appendString tc (coerceUTF8 v) = appendString tc v := by
  unfold appendString coerceUTF8
  rw [escapeLoop_coerceLoop tc hraw v.length v v.length v.length _ (le_refl _) (le_refl _)
    (le_refl _) (length_le_coerceLoop v.length v (le_refl _))]

/-! ## Claims: version resolution, routing, handlers, startup -/

/-- C1: for every environment, the version `main` resolves is the value of
`APP_VERSION` when that variable is set and not empty, it is the literal
`1.0.0` when the variable is unset or empty, and it is never the empty string. -/
theorem resolveVersion_spec (env : Env) :
    (∀ v, env appVersionKey = some v → v ≠ [] → resolveVersion env = v) ∧
    (env appVersionKey = none ∨ env appVersionKey = some [] →
      resolveVersion env = ascii "1.0.0") ∧
    resolveVersion env ≠ [] := by
  have hd : defaultVersion ≠ [] := by decide
  refine ⟨?_, ?_, ?_⟩
  · intro v hv hne
    simp [resolveVersion, osGetenv, hv, hne]
  · intro h
    rcases h with h | h <;> simp [resolveVersion, osGetenv, h, defaultVersion]
  · unfold resolveVersion
    simp only
    split
    · exact hd
    · assumption

/-- Witness for C1: `APP_VERSION=2.3.1` resolves to `2.3.1`, an unset and an
empty variable resolve to `1.0.0`. -/
theorem resolveVersion_spec_witness :
    resolveVersion (envOfAppVersion (some (ascii "2.3.1"))) = ascii "2.3.1" ∧
    resolveVersion (envOfAppVersion none) = ascii "1.0.0" ∧
    resolveVersion (envOfAppVersion (some [])) = ascii "1.0.0" :=
  ⟨(resolveVersion_spec (envOfAppVersion (some (ascii "2.3.1")))).1 (ascii "2.3.1")
      (by decide) (by decide),
   (resolveVersion_spec (envOfAppVersion none)).2.1 (Or.inl (by decide)),
   (resolveVersion_spec (envOfAppVersion (some []))).2.1 (Or.inr (by decide))⟩

/-- C3 as stated fails: with `APP_VERSION=2.3.1` the body of the `/health`
response is not the bare object; a newline follows it, with either encoder. -/
theorem health_body_exact_counterexample :
    (serve Toolchain.jsonV1 (resolveVersion (envOfAppVersion (some (ascii "2.3.1"))))
        (simpleRequest (ascii "GET") (ascii "/health"))).body?
      ≠ some (ascii "\x7b\"status\":\"healthy\",\"version\":\"2.3.1\"\x7d") ∧
    (serve Toolchain.jsonV2 (resolveVersion (envOfAppVersion (some (ascii "2.3.1"))))
        (simpleRequest (ascii "GET") (ascii "/health"))).body?
      ≠ some (ascii "\x7b\"status\":\"healthy\",\"version\":\"2.3.1\"\x7d") := by
  decide

/-- C3, amended: with `APP_VERSION=2.3.1` and with `APP_VERSION` unset, every
request to `/health` is answered by the health handler with status 200 and a
body that is exactly the object of the scenario followed by one newline byte,
with nothing before the object and nothing after the newline. -/
theorem health_body_scenarios (tc : Toolchain) (r : Request) (h : r.path = ascii "/health") :
    serve tc (resolveVersion (envOfAppVersion (some (ascii "2.3.1")))) r =
      ServeResult.handled HandlerId.health
        { status := 200, header := [(contentType, [applicationJSON])],
          body := ascii "\x7b\"status\":\"healthy\",\"version\":\"2.3.1\"\x7d" ++ [0x0A] } ∧
    serve tc (resolveVersion (envOfAppVersion none)) r =
      ServeResult.handled HandlerId.health
        { status := 200, header := [(contentType, [applicationJSON])],
          body := ascii "\x7b\"status\":\"healthy\",\"version\":\"1.0.0\"\x7d" ++ [0x0A] } := by
  have h1 : resolveVersion (envOfAppVersion (some (ascii "2.3.1"))) = ascii "2.3.1" := by decide
  have h2 : resolveVersion (envOfAppVersion none) = ascii "1.0.0" := by decide
  have b1 : encoderEncode tc { Status := ascii "healthy", Version := ascii "2.3.1" } =
      ascii "\x7b\"status\":\"healthy\",\"version\":\"2.3.1\"\x7d" ++ [0x0A] := by
    rcases tc with ⟨_ | _⟩ <;> decide
  have b2 : encoderEncode tc { Status := ascii "healthy", Version := ascii "1.0.0" } =
      ascii "\x7b\"status\":\"healthy\",\"version\":\"1.0.0\"\x7d" ++ [0x0A] := by
    rcases tc with ⟨_ | _⟩ <;> decide
  rw [h1, h2, serve_health tc _ r h, serve_health tc _ r h, b1, b2]
  exact ⟨rfl, rfl⟩

/-- Witness for C3, amended: a `GET /health` request. -/
theorem health_body_scenarios_witness :
    (serve Toolchain.jsonV2 (resolveVersion (envOfAppVersion (some (ascii "2.3.1"))))
        (simpleRequest (ascii "GET") (ascii "/health"))).body? =
      some (ascii "\x7b\"status\":\"healthy\",\"version\":\"2.3.1\"\x7d" ++ [0x0A]) ∧
    (serve Toolchain.jsonV2 (resolveVersion (envOfAppVersion none))
        (simpleRequest (ascii "GET") (ascii "/health"))).body? =
      some (ascii "\x7b\"status\":\"healthy\",\"version\":\"1.0.0\"\x7d" ++ [0x0A]) := by
  have h := health_body_scenarios Toolchain.jsonV2
    (simpleRequest (ascii "GET") (ascii "/health")) rfl
  rw [h.1, h.2]
  exact ⟨rfl, rfl⟩

/-- C5: every request to the path `/` is answered by the root handler with
status 200 and a body that is exactly the 31 bytes
`Supply Chain Security Demo App` and one newline; the handler sets no header:
it leaves the header map of any response writer as it received it, and the
response carries no `Content-Type` set by the handler. -/
theorem root_response (tc : Toolchain) (v : GoString) (r : Request) (h : r.path = ascii "/") :
    serve tc v r = ServeResult.handled HandlerId.root
        { status := 200, header := [], body := ascii "Supply Chain Security Demo App\n" } ∧
    (ascii "Supply Chain Security Demo App\n").length = 31 ∧
    (ascii "Supply Chain Security Demo App\n").getLast? = some 0x0A ∧
    (∀ (w : ResponseWriter) (q : Request), (rootHandler w q).header = w.header) ∧
    (∀ res, (serve tc v r).response? = some res → res.header.values contentType = none) := by
  have hc : cleanPath r.path = r.path := by rw [h]; decide
  have hne : r.path ≠ ascii "/health" := by rw [h]; decide
  have hs := serve_canonical tc v r hc hne
  refine ⟨hs, by decide, by decide, ?_, ?_⟩
  · intro w q
    unfold rootHandler ResponseWriter.Write ResponseWriter.WriteHeader
    cases hw : w.wroteHeader <;> simp [hw]
  · intro res hres
    rw [hs] at hres
    simp only [ServeResult.response?, Option.some.injEq] at hres
    rw [← hres]
    rfl

/-- Witness for C5: a `POST /` request with a version of `1.0.0`. -/
theorem root_response_witness :
    serve Toolchain.jsonV2 (ascii "1.0.0") (simpleRequest (ascii "POST") (ascii "/")) =
      ServeResult.handled HandlerId.root
        { status := 200, header := [], body := ascii "Supply Chain Security Demo App\n" } :=
  (root_response Toolchain.jsonV2 (ascii "1.0.0")
    (simpleRequest (ascii "POST") (ascii "/")) rfl).1

/-- C6 as stated fails: the path `//foo` is not `/health`, yet a `GET` request
to it is not dispatched to the root handler and gets no response of a handler;
the mux answers it itself with a redirect to `/foo`. -/
theorem catch_all_counterexample :
    (simpleRequest (ascii "GET") (ascii "//foo")).path ≠ ascii "/health" ∧
    serve Toolchain.jsonV2 (ascii "1.0.0") (simpleRequest (ascii "GET") (ascii "//foo")) =
      ServeResult.muxRedirect (ascii "/foo") ∧
    serve Toolchain.jsonV2 (ascii "1.0.0") (simpleRequest (ascii "GET") (ascii "//foo")) ≠
      ServeResult.handled HandlerId.root
        { status := 200, header := [], body := ascii "Supply Chain Security Demo App\n" } ∧
    (serve Toolchain.jsonV2 (ascii "1.0.0")
      (simpleRequest (ascii "GET") (ascii "//foo"))).response? = none := by
  decide

/-- C6, amended: a request whose path is not exactly `/health` is dispatched
to the root handler and gets status 200 with the root handler's body when its
path is in the canonical form of the mux (it equals its `cleanPath`: a leading
slash and no empty, `.` or `..` element), as `/foo`, `/healthz`, `/health/`
and `/a/b` are, whatever its method, and when its method is `CONNECT` and its
path begins with a slash; when its method is not `CONNECT` and its path is not
in canonical form, the mux answers it itself with a redirect to the cleaned
path. A request dispatched to the health handler has exactly the path
`/health`. -/
theorem catch_all_routing (tc : Toolchain) (v : GoString) (r : Request)
    (h : r.path ≠ ascii "/health") :
    (r.method = ascii "CONNECT" → r.path.head? = some 0x2F →
      serve tc v r = ServeResult.handled HandlerId.root
        { status := 200, header := [], body := ascii "Supply Chain Security Demo App\n" }) ∧
    (cleanPath r.path = r.path →
      serve tc v r = ServeResult.handled HandlerId.root
        { status := 200, header := [], body := ascii "Supply Chain Security Demo App\n" }) ∧
    (r.method ≠ ascii "CONNECT" → cleanPath r.path ≠ r.path →
      serve tc v r = ServeResult.muxRedirect (cleanPath r.path)) ∧
    (∀ p ∈ [ascii "/foo", ascii "/healthz", ascii "/health/", ascii "/a/b"],
      cleanPath p = p ∧ p.head? = some 0x2F ∧ p ≠ ascii "/health") ∧
    (∀ (q : Request) (res : Response),
      serve tc v q = ServeResult.handled HandlerId.health res → q.path = ascii "/health") := by
  refine ⟨fun hm hr => serve_rooted_connect tc v r hm hr h,
    fun hc => serve_canonical tc v r hc h,
    fun hm hc => serve_redirect tc v r hm hc, by decide, ?_⟩
  intro q res hq
  by_contra hne
  have hroute : muxHandler appMux q = Route.handler HandlerId.health := by
    unfold serve at hq
    split at hq
    · next hh heq =>
      simp only [ServeResult.handled.injEq] at hq
      rw [heq, hq.1]
    · simp at hq
    · simp at hq
  have hl := muxHandler_handler_eq q HandlerId.health hroute
  unfold muxLookup at hl
  have hm : muxMatch appMux q.path ≠ some HandlerId.health := by
    have e1 : ascii "/health" = [0x2F, 0x68, 0x65, 0x61, 0x6C, 0x74, 0x68] := by decide
    have e2 : ascii "/" = [0x2F] := by decide
    rw [e1] at hne
    unfold muxMatch
    by_cases hq2 : q.path = [0x2F]
    · simp [appMux, handleFunc, e1, e2, hq2]
    · have hq3 : ¬ ([0x2F] = q.path) := fun hh => hq2 hh.symm
      simp only [appMux, handleFunc, e1, e2, List.nil_append, List.singleton_append,
        List.find?_cons, List.find?_nil, Ne.symm hne, hq3, decide_False]
      simp
  split at hl
  · next hh heq =>
    simp only [Route.handler.injEq] at hl
    rw [hl] at heq
    exact hm heq
  · simp at hl

/-- Witness for C6, amended: a `CONNECT /a/../b` request and a
`DELETE /healthz` request reach the root handler, a `GET /a/../b` request is
redirected to `/b`. -/
theorem catch_all_routing_witness :
    serve Toolchain.jsonV2 (ascii "1.0.0") (simpleRequest (ascii "CONNECT") (ascii "/a/../b")) =
      ServeResult.handled HandlerId.root
        { status := 200, header := [], body := ascii "Supply Chain Security Demo App\n" } ∧
    serve Toolchain.jsonV2 (ascii "1.0.0") (simpleRequest (ascii "DELETE") (ascii "/healthz")) =
      ServeResult.handled HandlerId.root
        { status := 200, header := [], body := ascii "Supply Chain Security Demo App\n" } ∧
    serve Toolchain.jsonV2 (ascii "1.0.0") (simpleRequest (ascii "GET") (ascii "/a/../b")) =
      ServeResult.muxRedirect (cleanPath (ascii "/a/../b")) ∧
    cleanPath (ascii "/a/../b") = ascii "/b" :=
  ⟨(catch_all_routing Toolchain.jsonV2 (ascii "1.0.0")
      (simpleRequest (ascii "CONNECT") (ascii "/a/../b")) (by decide)).1 rfl rfl,
   (catch_all_routing Toolchain.jsonV2 (ascii "1.0.0")
      (simpleRequest (ascii "DELETE") (ascii "/healthz")) (by decide)).2.1
      (by decide),
   (catch_all_routing Toolchain.jsonV2 (ascii "1.0.0")
      (simpleRequest (ascii "GET") (ascii "/a/../b")) (by decide)).2.2.1
      (by decide) (by decide),
   by decide⟩

/-- C7: every request to `/health` is answered by the health handler and the
response carries `Content-Type` with the single value `application/json`;
the handler sets the header before it writes: on any response writer that has
not written yet, the headers fixed at the first body byte already hold that
value, and the body the writer had is only extended by the encoded object. -/
theorem health_content_type (tc : Toolchain) (v : GoString) (r : Request)
    (h : r.path = ascii "/health") :
    (∃ res, serve tc v r = ServeResult.handled HandlerId.health res ∧ res.status = 200 ∧
      res.header.values (ascii "Content-Type") = some [ascii "application/json"]) ∧
    (∀ (w : ResponseWriter) (q : Request), w.wroteHeader = false →
      (healthHandler tc v w q).sentHeader.values (ascii "Content-Type")
          = some [ascii "application/json"] ∧
      (healthHandler tc v w q).body =
        w.body ++ encoderEncode tc { Status := ascii "healthy", Version := v }) := by
  constructor
  · refine ⟨_, serve_health tc v r h, rfl, ?_⟩
    show Header.values [(contentType, [applicationJSON])] (ascii "Content-Type") = _
    decide
  · intro w q hw
    have hv := headerValues_set w.header (ascii "Content-Type") (ascii "application/json")
    simp [healthHandler, ResponseWriter.Write, ResponseWriter.WriteHeader, hw, hv]

/-- Witness for C7: a `HEAD /health` request with a version of `2.3.1`. -/
theorem health_content_type_witness :
    ∃ res, serve Toolchain.jsonV2 (ascii "2.3.1") (simpleRequest (ascii "HEAD") (ascii "/health"))
        = ServeResult.handled HandlerId.health res ∧ res.status = 200 ∧
      res.header.values (ascii "Content-Type") = some [ascii "application/json"] :=
  (health_content_type Toolchain.jsonV2 (ascii "2.3.1")
    (simpleRequest (ascii "HEAD") (ascii "/health")) rfl).1

/-- C8 as stated fails, twice. Two requests with the same path `//foo` get
different outcomes by their method: the `GET` request is redirected by the
mux, the `CONNECT` request reaches the root handler. And two requests with the
same path `/health` get different bodies on the wire: the response to the
`GET` request carries the encoded object, the response to the `HEAD` request
carries no body. -/
theorem request_independence_counterexample :
    (simpleRequest (ascii "GET") (ascii "//foo")).path
      = (simpleRequest (ascii "CONNECT") (ascii "//foo")).path ∧
    serveWire Toolchain.jsonV2 (ascii "1.0.0") (simpleRequest (ascii "GET") (ascii "//foo"))
      = ServeResult.muxRedirect (ascii "/foo") ∧
    serveWire Toolchain.jsonV2 (ascii "1.0.0") (simpleRequest (ascii "CONNECT") (ascii "//foo"))
      = ServeResult.handled HandlerId.root
          { status := 200, header := [], body := ascii "Supply Chain Security Demo App\n" } ∧
    (simpleRequest (ascii "GET") (ascii "/health")).path
      = (simpleRequest (ascii "HEAD") (ascii "/health")).path ∧
    (serveWire Toolchain.jsonV2 (ascii "1.0.0")
        (simpleRequest (ascii "GET") (ascii "/health"))).body?
      = some (ascii "\x7b\"status\":\"healthy\",\"version\":\"1.0.0\"\x7d\n") ∧
    (serveWire Toolchain.jsonV2 (ascii "1.0.0")
        (simpleRequest (ascii "HEAD") (ascii "/health"))).body? = some [] ∧
    serveWire Toolchain.jsonV2 (ascii "1.0.0") (simpleRequest (ascii "GET") (ascii "/health"))
      ≠ serveWire Toolchain.jsonV2 (ascii "1.0.0")
          (simpleRequest (ascii "HEAD") (ascii "/health")) := by
  decide

/-- C8, amended: for a fixed resolved version, take any two requests with the
same path, whatever their method, request headers and request body, such that
the path is in canonical form or both or neither of them use `CONNECT`. The
mux decides the same for both and a handler writes the same for both: the
outcomes are the same handler with the same status, headers and body, or the
same reply of the mux (a redirect to the same path, or not found). On the
wire the two responses have the same status and the same headers, and the same
body when both or neither of the requests are `HEAD` requests. Neither handler
reads the request: on the same response writer each handler does the same for
any two requests. -/
theorem request_independence (tc : Toolchain) (v : GoString) (r1 r2 : Request)
    (hp : r1.path = r2.path)
    (hc : (r1.method = ascii "CONNECT" ↔ r2.method = ascii "CONNECT") ∨
      cleanPath r1.path = r1.path) :
    serve tc v r1 = serve tc v r2 ∧
    ((r1.method = ascii "HEAD" ↔ r2.method = ascii "HEAD") →
      serveWire tc v r1 = serveWire tc v r2) ∧
    (∀ res1 res2, (serveWire tc v r1).response? = some res1 →
      (serveWire tc v r2).response? = some res2 →
      res1.status = res2.status ∧ res1.header = res2.header) ∧
    (∀ (w : ResponseWriter) (q1 q2 : Request),
      healthHandler tc v w q1 = healthHandler tc v w q2 ∧
      rootHandler w q1 = rootHandler w q2) := by
  have hs := serve_same tc v r1 r2 (muxHandler_same r1 r2 hp hc)
  refine ⟨hs, ?_, ?_, fun w q1 q2 => ⟨rfl, rfl⟩⟩
  · intro hh
    unfold serveWire
    rw [hs]
    cases serve tc v r2 with
    | handled h res =>
      show ServeResult.handled h (wireResponse r1 res) = ServeResult.handled h (wireResponse r2 res)
      rw [wireResponse_same r1 r2 res hh]
    | muxRedirect p => rfl
    | muxNotFound => rfl
  · intro res1 res2 h1 h2
    unfold serveWire at h1 h2
    rw [hs] at h1
    cases hsv : serve tc v r2 with
    | handled h res =>
      rw [hsv] at h1 h2
      simp only [ServeResult.response?, Option.some.injEq] at h1 h2
      rw [← h1, ← h2, (wireResponse_status r1 res).1, (wireResponse_status r1 res).2,
        (wireResponse_status r2 res).1, (wireResponse_status r2 res).2]
      exact ⟨rfl, rfl⟩
    | muxRedirect p =>
      rw [hsv] at h1
      simp [ServeResult.response?] at h1
    | muxNotFound =>
      rw [hsv] at h1
      simp [ServeResult.response?] at h1

/-- Witness for C8, amended: a `GET /health` request and a `POST /health`
request with a query, a header and a body get the same response on the wire;
a `GET //foo` request and a `POST //foo` request get the same redirect. -/
theorem request_independence_witness :
    serveWire Toolchain.jsonV2 (ascii "2.3.1") (simpleRequest (ascii "GET") (ascii "/health")) =
      serveWire Toolchain.jsonV2 (ascii "2.3.1")
        { method := ascii "POST", path := ascii "/health", rawQuery := ascii "a=1",
          host := ascii "example.com", header := [(ascii "Accept", [ascii "text/html"])],
          body := ascii "payload" } ∧
    serve Toolchain.jsonV2 (ascii "2.3.1") (simpleRequest (ascii "GET") (ascii "//foo")) =
      serve Toolchain.jsonV2 (ascii "2.3.1") (simpleRequest (ascii "POST") (ascii "//foo")) :=
  ⟨(request_independence Toolchain.jsonV2 (ascii "2.3.1")
      (simpleRequest (ascii "GET") (ascii "/health"))
      { method := ascii "POST", path := ascii "/health", rawQuery := ascii "a=1",
        host := ascii "example.com", header := [(ascii "Accept", [ascii "text/html"])],
        body := ascii "payload" }
      rfl (Or.inr (by decide))).2.1 (by decide),
   (request_independence Toolchain.jsonV2 (ascii "2.3.1")
      (simpleRequest (ascii "GET") (ascii "//foo")) (simpleRequest (ascii "POST") (ascii "//foo"))
      rfl (Or.inl (by decide))).1⟩

/-- C9: when binding `:8080` fails, `main` does its startup effects, tries to
listen on `:8080` once, logs the error it got and exits with status 1; it
listens on no other address and no second time, and it serves no request,
whatever requests are waiting. -/
theorem bind_failure_fatal (tc : Toolchain) (w : World) (err : GoString)
    (h : w.listenError (ascii ":8080") = some err) :
    main tc w =
      ([Effect.getenv (ascii "APP_VERSION"),
        Effect.handleFunc (ascii "/health") HandlerId.health,
        Effect.handleFunc (ascii "/") HandlerId.root,
        Effect.logPrint (startupMessage (resolveVersion w.env)),
        Effect.listen (ascii ":8080"),
        Effect.logPrint err,
        Effect.exit 1], some 1) ∧
    (∃ code, (main tc w).2 = some code ∧ code ≠ 0) ∧
    (∀ a, Effect.listen a ∈ (main tc w).1 → a = ascii ":8080") ∧
    (main tc w).1.count (Effect.listen (ascii ":8080")) = 1 ∧
    (∀ q res, Effect.served q res ∉ (main tc w).1) := by
  have hm : main tc w =
      ([Effect.getenv (ascii "APP_VERSION"),
        Effect.handleFunc (ascii "/health") HandlerId.health,
        Effect.handleFunc (ascii "/") HandlerId.root,
        Effect.logPrint (startupMessage (resolveVersion w.env)),
        Effect.listen (ascii ":8080"),
        Effect.logPrint err,
        Effect.exit 1], some 1) := by
    simp [main, listenAndServe, h, logFatal, appVersionKey]
  refine ⟨hm, ⟨1, by rw [hm], by decide⟩, ?_, ?_, ?_⟩
  · intro a ha
    rw [hm] at ha
    simpa using ha
  · rw [hm]
    simp [List.count_cons]
  · intro q res hq
    rw [hm] at hq
    simp at hq

/-- Witness for C9: the port is in use while a request is waiting. -/
theorem bind_failure_fatal_witness :
    (main Toolchain.jsonV2 (simpleWorld none (some (ascii "address already in use"))
      [simpleRequest (ascii "GET") (ascii "/health")])).2 = some 1 := by
  have h := (bind_failure_fatal Toolchain.jsonV2
    (simpleWorld none (some (ascii "address already in use"))
      [simpleRequest (ascii "GET") (ascii "/health")])
    (ascii "address already in use") rfl).1
  rw [h]

/-- C10 as stated fails: in a run of `main` the startup message is logged
before the address is bound, not after: the log effect is the fourth effect
and the listen effect the fifth. -/
theorem startup_order_counterexample :
    ¬ (List.indexOf (Effect.listen (ascii ":8080"))
          (main Toolchain.jsonV2 (simpleWorld none none [])).1
        < List.indexOf (Effect.logPrint (startupMessage (ascii "1.0.0")))
            (main Toolchain.jsonV2 (simpleWorld none none [])).1) ∧
    List.indexOf (Effect.logPrint (startupMessage (ascii "1.0.0")))
        (main Toolchain.jsonV2 (simpleWorld none none [])).1 = 3 ∧
    List.indexOf (Effect.listen (ascii ":8080"))
        (main Toolchain.jsonV2 (simpleWorld none none [])).1 = 4 := by
  decide

/-- C10, amended: in every run, `main` starts with these effects in this
order: it reads `APP_VERSION`, registers the `/health` handler, registers the
`/` handler, logs the startup message, which contains the resolved version,
and only then binds and listens on `:8080`. -/
theorem startup_order (tc : Toolchain) (w : World) :
    (∃ rest, (main tc w).1 =
      [Effect.getenv (ascii "APP_VERSION"),
       Effect.handleFunc (ascii "/health") HandlerId.health,
       Effect.handleFunc (ascii "/") HandlerId.root,
       Effect.logPrint (startupMessage (resolveVersion w.env)),
       Effect.listen (ascii ":8080")] ++ rest) ∧
    resolveVersion w.env <:+: startupMessage (resolveVersion w.env) := by
  constructor
  · unfold main listenAndServe
    cases hl : w.listenError (ascii ":8080") with
    | some err => exact ⟨logFatal err, by simp [appVersionKey]⟩
    | none =>
      cases hs : w.serveError with
      | some err =>
        exact ⟨w.requests.map (fun r => Effect.served r (serve tc (resolveVersion w.env) r))
          ++ logFatal err, by simp [appVersionKey]⟩
      | none =>
        exact ⟨w.requests.map (fun r => Effect.served r (serve tc (resolveVersion w.env) r)),
          by simp [appVersionKey]⟩
  · exact ⟨ascii "Starting server on :8080 (version ", ascii ")", rfl⟩

/-! ## Claims: the JSON body of the health response -/

/-- C2 as stated fails: with `APP_VERSION` set to the single byte `FF`, which
is not valid UTF-8, the resolved version is that byte, but the body of the
`/health` response is, with either encoder, the JSON text of an object whose
`version` is U+FFFD (`EF BF BD`), not the environment value. -/
theorem health_json_counterexample :
    resolveVersion (envOfAppVersion (some [0xFF])) = [0xFF] ∧
    (∃ body, (serve Toolchain.jsonV1 (resolveVersion (envOfAppVersion (some [0xFF])))
          (simpleRequest (ascii "GET") (ascii "/health"))).body? = some body ∧
      parseJSON body = some (JValue.object [(ascii "status", JValue.string (ascii "healthy")),
          (ascii "version", JValue.string [0xEF, 0xBF, 0xBD])]) ∧
      parseJSON body ≠ some (JValue.object [(ascii "status", JValue.string (ascii "healthy")),
          (ascii "version", JValue.string [0xFF])])) ∧
    (∃ body, (serve Toolchain.jsonV2 (resolveVersion (envOfAppVersion (some [0xFF])))
          (simpleRequest (ascii "GET") (ascii "/health"))).body? = some body ∧
      parseJSON body = some (JValue.object [(ascii "status", JValue.string (ascii "healthy")),
          (ascii "version", JValue.string [0xEF, 0xBF, 0xBD])]) ∧
      parseJSON body ≠ some (JValue.object [(ascii "status", JValue.string (ascii "healthy")),
          (ascii "version", JValue.string [0xFF])])) := by
  have hr : resolveVersion (envOfAppVersion (some [0xFF])) = [0xFF] := by decide
  have hc : coerceUTF8 [0xFF] = [0xEF, 0xBF, 0xBD] := by decide
  have key : ∀ tc : Toolchain,
      ∃ body, (serve tc [0xFF] (simpleRequest (ascii "GET") (ascii "/health"))).body? = some body ∧
      parseJSON body = some (JValue.object [(ascii "status", JValue.string (ascii "healthy")),
          (ascii "version", JValue.string [0xEF, 0xBF, 0xBD])]) ∧
      parseJSON body ≠ some (JValue.object [(ascii "status", JValue.string (ascii "healthy")),
          (ascii "version", JValue.string [0xFF])]) := by
    intro tc
    have hp := parseJSON_encoderEncode tc { Status := ascii "healthy", Version := [0xFF] }
    simp only [coerceUTF8_healthy, hc] at hp
    refine ⟨encoderEncode tc { Status := ascii "healthy", Version := [0xFF] }, ?_, hp, ?_⟩
    · rw [serve_health tc _ _ rfl]
      rfl
    · rw [hp]
      simp
  rw [hr]
  exact ⟨rfl, key Toolchain.jsonV1, key Toolchain.jsonV2⟩

/-- C2, amended: for every value of `APP_VERSION` (absent and empty included,
and whatever quotes, backslashes, control characters, `<`, `>` or `&` it
holds) a request to `/health` returns status 200 with a body that is a JSON
text of an object with exactly two fields, `status` then `version`, where
`status` is `healthy` and `version` is the resolved version with every byte
that is not part of a valid UTF-8 sequence replaced by U+FFFD; when the
resolved version is valid UTF-8, `version` is the resolved version itself.
The resolved version is the environment value, or `1.0.0` if the variable is
unset or empty. -/
theorem health_json (tc : Toolchain) (env : Env) (r : Request) (h : r.path = ascii "/health") :
    (∃ res, serve tc (resolveVersion env) r = ServeResult.handled HandlerId.health res ∧
      res.status = 200 ∧
      parseJSON res.body = some (JValue.object
        [(ascii "status", JValue.string (ascii "healthy")),
         (ascii "version", JValue.string (coerceUTF8 (resolveVersion env)))]) ∧
      (validString (resolveVersion env) = true →
        parseJSON res.body = some (JValue.object
          [(ascii "status", JValue.string (ascii "healthy")),
           (ascii "version", JValue.string (resolveVersion env))]))) ∧
    (∀ v, env appVersionKey = some v → v ≠ [] → resolveVersion env = v) ∧
    (env appVersionKey = none ∨ env appVersionKey = some [] →
      resolveVersion env = ascii "1.0.0") := by
  refine ⟨⟨_, serve_health tc (resolveVersion env) r h, rfl, ?_, ?_⟩, ?_, ?_⟩
  · have hp := parseJSON_encoderEncode tc
      { Status := ascii "healthy", Version := resolveVersion env }
    simp only [coerceUTF8_healthy] at hp
    exact hp
  · intro hv
    have hp := parseJSON_encoderEncode tc
      { Status := ascii "healthy", Version := resolveVersion env }
    simp only [coerceUTF8_healthy, coerceUTF8_valid _ hv] at hp
    exact hp
  · intro v hv hne
    simp [resolveVersion, osGetenv, hv, hne]
  · intro hx
    rcases hx with hx | hx <;> simp [resolveVersion, osGetenv, hx, defaultVersion]

/-- Witness for C2, amended: `APP_VERSION` holds a quote, a backslash, `<`,
`>`, `&`, a control character, a newline and a two-byte UTF-8 letter. -/
theorem health_json_witness :
    ∃ res, serve Toolchain.jsonV2 (resolveVersion (envOfAppVersion
          (some [0x22, 0x5C, 0x3C, 0x3E, 0x26, 0x01, 0x0A, 0xC3, 0xA9])))
        (simpleRequest (ascii "GET") (ascii "/health"))
        = ServeResult.handled HandlerId.health res ∧
      parseJSON res.body = some (JValue.object
        [(ascii "status", JValue.string (ascii "healthy")),
         (ascii "version", JValue.string (resolveVersion (envOfAppVersion
          (some [0x22, 0x5C, 0x3C, 0x3E, 0x26, 0x01, 0x0A, 0xC3, 0xA9]))))]) := by
  obtain ⟨res, h1, _, _, h4⟩ := (health_json Toolchain.jsonV2
    (envOfAppVersion (some [0x22, 0x5C, 0x3C, 0x3E, 0x26, 0x01, 0x0A, 0xC3, 0xA9]))
    (simpleRequest (ascii "GET") (ascii "/health")) rfl).1
  exact ⟨res, h1, h4 (by decide)⟩

/-- C4 as stated fails: for the resolved version `FF` (one byte, not valid
UTF-8) the body decodes, with either encoder, into a `HealthResponse` whose
`Version` is U+FFFD (`EF BF BD`), not the resolved version. Encoding the
decoded value again gives another body with the original encoder (the escape
`\ufffd` stands for the invalid byte, the raw bytes for the decoded
character) and the same body with the encoder that writes U+FFFD raw. -/
theorem round_trip_counterexample :
    (serve Toolchain.jsonV1 [0xFF] (simpleRequest (ascii "GET") (ascii "/health"))).body?
      = some (encoderEncode Toolchain.jsonV1 { Status := ascii "healthy", Version := [0xFF] }) ∧
    unmarshalHealthResponse
        (encoderEncode Toolchain.jsonV1 { Status := ascii "healthy", Version := [0xFF] })
      = some { Status := ascii "healthy", Version := [0xEF, 0xBF, 0xBD] } ∧
    (serve Toolchain.jsonV2 [0xFF] (simpleRequest (ascii "GET") (ascii "/health"))).body?
      = some (encoderEncode Toolchain.jsonV2 { Status := ascii "healthy", Version := [0xFF] }) ∧
    unmarshalHealthResponse
        (encoderEncode Toolchain.jsonV2 { Status := ascii "healthy", Version := [0xFF] })
      = some { Status := ascii "healthy", Version := [0xEF, 0xBF, 0xBD] } ∧
    (some { Status := ascii "healthy", Version := [0xEF, 0xBF, 0xBD] } : Option HealthResponse)
      ≠ some { Status := ascii "healthy", Version := [0xFF] } ∧
    encoderEncode Toolchain.jsonV1 { Status := ascii "healthy", Version := [0xEF, 0xBF, 0xBD] }
      ≠ encoderEncode Toolchain.jsonV1 { Status := ascii "healthy", Version := [0xFF] } ∧
    encoderEncode Toolchain.jsonV2 { Status := ascii "healthy", Version := [0xEF, 0xBF, 0xBD] }
      = encoderEncode Toolchain.jsonV2 { Status := ascii "healthy", Version := [0xFF] } := by
  decide

/-- C4, amended: for every resolved version the `/health` body is
syntactically valid JSON and decodes into a `HealthResponse` with `Status`
`healthy` and `Version` the resolved version with every byte that is not part
of a valid UTF-8 sequence replaced by U+FFFD, which is the resolved version
itself when that is valid UTF-8; encoding the decoded value again and decoding
it yields the same field values; and encoding the decoded value again yields
the same body when the resolved version is valid UTF-8, and for every resolved
version when the encoder writes U+FFFD as its three bytes. -/
theorem round_trip (tc : Toolchain) (v : GoString) (r : Request)
    (h : r.path = ascii "/health") :
    ∃ body decoded, (serve tc v r).body? = some body ∧
      (parseJSON body).isSome = true ∧
      unmarshalHealthResponse body = some decoded ∧
      decoded.Status = ascii "healthy" ∧
      decoded.Version = coerceUTF8 v ∧
      (validString v = true → decoded.Version = v) ∧
      unmarshalHealthResponse (encoderEncode tc decoded) = some decoded ∧
      (validString v = true ∨ tc.rawRuneError = true → encoderEncode tc decoded = body) := by
  refine ⟨encoderEncode tc { Status := ascii "healthy", Version := v },
    { Status := ascii "healthy", Version := coerceUTF8 v }, ?_, ?_, ?_, rfl, rfl, ?_, ?_, ?_⟩
  · rw [serve_health tc v r h]
    rfl
  · rw [parseJSON_encoderEncode]
    rfl
  · rw [unmarshal_encoderEncode]
    simp only [coerceUTF8_healthy]
  · intro hv
    exact coerceUTF8_valid v hv
  · rw [unmarshal_encoderEncode]
    simp only [coerceUTF8_healthy, coerceUTF8_idem]
  · intro hv
    rcases hv with hv | hv
    · simp only [coerceUTF8_valid v hv]
    · simp only [encoderEncode, marshalHealthResponse, appendString_coerceUTF8 tc hv v]

/-- Witness for C4, amended: the version `2.3.1` with the original encoder, a
version with an escaped quote and a three-byte UTF-8 character, and the
version `FF`, not valid UTF-8, with the encoder that writes U+FFFD raw. -/
theorem round_trip_witness :
    (∃ body decoded,
      (serve Toolchain.jsonV1 (ascii "2.3.1")
        (simpleRequest (ascii "GET") (ascii "/health"))).body? = some body ∧
      unmarshalHealthResponse body = some decoded ∧ decoded.Version = ascii "2.3.1" ∧
      encoderEncode Toolchain.jsonV1 decoded = body) ∧
    (∃ body decoded,
      (serve Toolchain.jsonV2 [0x76, 0x22, 0xE2, 0x82, 0xAC]
        (simpleRequest (ascii "GET") (ascii "/health"))).body? = some body ∧
      unmarshalHealthResponse body = some decoded ∧
      decoded.Version = [0x76, 0x22, 0xE2, 0x82, 0xAC] ∧
      encoderEncode Toolchain.jsonV2 decoded = body) ∧
    (∃ body decoded,
      (serve Toolchain.jsonV2 [0xFF]
        (simpleRequest (ascii "GET") (ascii "/health"))).body? = some body ∧
      unmarshalHealthResponse body = some decoded ∧
      decoded.Version = coerceUTF8 [0xFF] ∧
      encoderEncode Toolchain.jsonV2 decoded = body) := by
  refine ⟨?_, ?_, ?_⟩
  · obtain ⟨body, decoded, h1, _, h3, _, _, h6, _, h8⟩ :=
      round_trip Toolchain.jsonV1 (ascii "2.3.1")
        (simpleRequest (ascii "GET") (ascii "/health")) rfl
    exact ⟨body, decoded, h1, h3, h6 (by decide), h8 (Or.inl (by decide))⟩
  · obtain ⟨body, decoded, h1, _, h3, _, _, h6, _, h8⟩ :=
      round_trip Toolchain.jsonV2 [0x76, 0x22, 0xE2, 0x82, 0xAC]
        (simpleRequest (ascii "GET") (ascii "/health")) rfl
    exact ⟨body, decoded, h1, h3, h6 (by decide), h8 (Or.inl (by decide))⟩
  · obtain ⟨body, decoded, h1, _, h3, _, h5, _, _, h8⟩ :=
      round_trip Toolchain.jsonV2 [0xFF]
        (simpleRequest (ascii "GET") (ascii "/health")) rfl
    exact ⟨body, decoded, h1, h3, h5, h8 (Or.inr rfl)⟩

end SupplyChainDemo
